import Mathlib

/-!
# arktools: the steamcmd codec, container decoder and manifest parser

A shallow embedding of `pkg/steamcmd/steamcmd.go`.

Conventions of the embedding:

* a Go `[]byte` or a Go `string` holding binary data is a `List Byte`;
* a Go `string` holding manifest text is a `List Char` (the runes of valid UTF-8 text);
* `uint32` values are `Nat` reduced `% 2^32` wherever the source can wrap;
* a `bytes.Buffer` used as an `io.Reader` is the list of its unread bytes;
* writes to an `io.Writer` append to a byte list and do not fail.
-/

namespace Steamcmd

/-! ## Bytes and little-endian words -/

/-- One octet. -/
abbrev Byte := Fin 256

/-- Conversion `uint32(n)`: truncation to 32 bits. -/
def uint32 (n : Nat) : Nat := n % 4294967296

/-- The four bytes `binary.Write(w, binary.LittleEndian, l)` emits for a `uint32`. -/
def le32 (n : Nat) : List Byte :=
  [Fin.ofNat n, Fin.ofNat (n / 256), Fin.ofNat (n / 65536), Fin.ofNat (n / 16777216)]

/-- The `uint32` that `binary.Read(r, binary.LittleEndian, &l)` decodes from four bytes. -/
def u32 (b0 b1 b2 b3 : Byte) : Nat :=
  b0.val + 256 * b1.val + 65536 * b2.val + 16777216 * b3.val

/-- The little-endian `uint32` stored at byte offset `off` of `data`. -/
def u32At (data : List Byte) (off : Nat) : Nat :=
  u32 (data.getD off 0) (data.getD (off + 1) 0) (data.getD (off + 2) 0) (data.getD (off + 3) 0)

/-- The bytes of a Go string literal (its UTF-8 encoding). -/
def utf8 (s : String) : List Byte :=
  s.toList.flatMap (fun c => (String.utf8EncodeChar c).map (fun b => Fin.ofNat b.toNat))

deriving instance DecidableEq for Except

/-! ## The UE4 string codec (`readUe4String`, `writeUe4String`) -/

/-- The two error returns of `readUe4String`. -/
inductive CodecError where
  /-- `binary.Read(len)` failed: fewer than four bytes were available. -/
  | readLen
  /-- `r.Read(data)` failed: the buffer was empty. -/
  | read
  deriving DecidableEq, Repr

/-- `bytes.Buffer.Read(p)` with `len(p) = l` on a non-empty buffer `buf`, where `p` was
freshly made by `make([]byte, l)`: the first `min l (len buf)` bytes are copied into
`p`, the remainder of `p` keeps its zero value, and no error is reported. -/
def bufferRead (buf : List Byte) (l : Nat) : List Byte :=
  buf.take l ++ List.replicate (l - buf.length) 0

/-- `readUe4String(r)` for `r` a `bytes.Buffer` holding the bytes `r`.
Returns the decoded string and `nread`. -/
def readUe4String (r : List Byte) : Except CodecError (List Byte × Nat) :=
  match r with
  | b0 :: b1 :: b2 :: b3 :: rest =>
    let l := u32 b0 b1 b2 b3
    let nread := 4 + l
    if l ≤ 0 then
      .ok ([], nread)
    else if rest.isEmpty then
      -- `Buffer.Read` returns `io.EOF` only when there is nothing left to read
      .error .read
    else
      let data := bufferRead rest l
      -- remove null
      .ok (data.dropLast, nread)
  | _ => .error .readLen

/-- `writeUe4String(w, s)`: the bytes appended to `w`. -/
def writeUe4String (s : List Byte) : List Byte :=
  -- append null
  let s := s ++ [0]
  let l := uint32 s.length
  le32 l ++ s

/-- The string of the codec test, `"hello!!!"`. -/
def hello : List Byte := utf8 "hello!!!"

/-! ## The manifest parser (`readAcf`, `ReadAcf`) -/

/-- A Go string holding text: the sequence of its runes. -/
abbrev Str := List Char

/-- The predicate `unicode.IsSpace`. -/
def isSpace (r : Char) : Bool :=
  let c := r.toNat
  c == 0x09 || c == 0x0A || c == 0x0B || c == 0x0C || c == 0x0D || c == 0x20
    || c == 0x85 || c == 0xA0 || c == 0x1680 || (0x2000 ≤ c && c ≤ 0x200A)
    || c == 0x2028 || c == 0x2029 || c == 0x202F || c == 0x205F || c == 0x3000

/-- Removal of the trailing runes that satisfy `p`. -/
def trimRight (p : Char → Bool) (s : Str) : Str :=
  (s.reverse.dropWhile p).reverse

/-- The function `strings.TrimSpace`. -/
def trimSpace (s : Str) : Str :=
  trimRight isSpace (s.dropWhile isSpace)

/-- The function `strings.Trim(s, cutset)`: all leading and trailing runes contained in
`cutset` are removed. -/
def trim (s : Str) (cutset : Str) : Str :=
  trimRight (fun c => cutset.contains c) (s.dropWhile (fun c => cutset.contains c))

/-- The function `strings.SplitN(s, sep, 2)` for a one-rune separator: the text before
the first separator and the text after it, or `s` alone when there is none. -/
def splitN2 (s : Str) (sep : Char) : List Str :=
  match s.span (fun c => c != sep) with
  | (a, []) => [a]
  | (a, _ :: b) => [a, b]

/-- The function `strings.Split(s, sep)` for a one-rune separator. -/
def split (s : Str) (sep : Char) : List Str :=
  match s with
  | [] => [[]]
  | c :: cs =>
    if c = sep then [] :: split cs sep
    else
      match split cs sep with
      | [] => [[c]]
      | h :: t => (c :: h) :: t

/-- The text `{`. -/
def lbrace : Str := [Char.ofNat 0x7B]

/-- The text `}`. -/
def rbrace : Str := [Char.ofNat 0x7D]

/-- The cutset of one double-quote character. -/
def dquote : Str := [Char.ofNat 0x22]

/-- The key and the value `readAcf` extracts from one line (the statements of the
loop body from `strings.TrimSpace(line)` to `strings.Trim(v, "\"")`). -/
def splitLine (line : Str) : Str × Str :=
  let line := trimSpace line
  let arr := splitN2 line (Char.ofNat 0x09)
  let k := if arr.length > 0 then arr.getD 0 [] else []
  let v := if arr.length > 1 then arr.getD 1 [] else []
  let k := trimSpace k
  let v := trimSpace v
  let k := trim k dquote
  let v := trim v dquote
  (k, v)

/-- The string `fmt.Sprintf("%v.%v", a, b)`. -/
def dotJoin (a b : Str) : Str := a ++ [Char.ofNat 0x2E] ++ b

/-- The loop of `readAcf(lines, pfx)` from index `i` on, with the current values of
`prev` and `pairs`; the nested `readAcf(lines[i+1:], ...)` is the same loop started at
index 0 on the shorter slice. The first argument bounds the depth of the calls;
`none` is returned when it is exhausted. The result is `(nread, pairs)`. -/
def readAcfLoop : Nat → List Str → Str → Nat → Str → List (Str × Str) →
    Option (Nat × List (Str × Str))
  | 0, _, _, _, _, _ => none
  | fuel + 1, lines, pfx, i, prev, pairs =>
    if i < lines.length then
      let kv := splitLine (lines.getD i [])
      let k := kv.1
      let v := kv.2
      if k = lbrace then
        match readAcfLoop fuel (lines.drop (i + 1)) (dotJoin pfx prev) 0 [] [] with
        | none => none
        | some (nread, sub) =>
          let i := i + nread
          readAcfLoop fuel lines pfx (i + 1) prev (pairs ++ sub)
      else if k = rbrace then
        some (i + 1, pairs)
      else if v = [] then
        readAcfLoop fuel lines pfx (i + 1) k pairs
      else
        readAcfLoop fuel lines pfx (i + 1) prev (pairs ++ [(dotJoin pfx k, v)])
    else
      some (lines.length, pairs)

/-- The function `readAcf(lines, pfx)`. -/
def readAcf (lines : List Str) (pfx : Str) : Option (Nat × List (Str × Str)) :=
  readAcfLoop (lines.length + 1) lines pfx 0 [] []

/-- The function `ReadAcf(input)`. -/
def ReadAcf (input : Str) : Option (List (Str × Str)) :=
  (readAcf (split input (Char.ofNat 0x0A)) []).map Prod.snd

/-! ### Lines, nesting and the flat reading of a manifest -/

/-- A line whose key is `{`. -/
def isOpen (line : Str) : Bool := (splitLine line).1 == lbrace

/-- A line whose key is `}`. -/
def isClose (line : Str) : Bool := (splitLine line).1 == rbrace

/-- A line with a non-empty value. -/
def hasValue (line : Str) : Bool := (splitLine line).2 != []

/-- A section-key line: a non-empty key other than a brace, and an empty value. -/
def isSectionKey (line : Str) : Bool :=
  !isOpen line && !isClose line && (splitLine line).1 != [] && (splitLine line).2 == []

/-- A key/value line: a key other than a brace, and a non-empty value. -/
def isPairLine (line : Str) : Bool := !isOpen line && !isClose line && hasValue line

/-- The number of lines consumed from `lines` by a scope entered at nesting depth
`depth` above the scope that ends first: up to and including the `}` that closes
that scope, or all lines when there is none. -/
def scan : List Str → Nat → Nat
  | [], _ => 0
  | line :: lines, depth =>
    if isOpen line then 1 + scan lines (depth + 1)
    else if isClose line then
      match depth with
      | 0 => 1
      | d + 1 => 1 + scan lines d
    else 1 + scan lines depth

/-- The pairs of a manifest read in one pass with a stack of open scopes, each with
its path and its pending section key; the reading stops when the stack is empty. -/
def collect : List Str → List (Str × Str) → List (Str × Str)
  | [], _ => []
  | _ :: _, [] => []
  | line :: lines, (pfx, prev) :: stack =>
    if isOpen line then collect lines ((dotJoin pfx prev, []) :: (pfx, prev) :: stack)
    else if isClose line then collect lines stack
    else if (splitLine line).2 = [] then collect lines ((pfx, (splitLine line).1) :: stack)
    else (dotJoin pfx (splitLine line).1, (splitLine line).2) ::
      collect lines ((pfx, prev) :: stack)

/-- The check of the claim's valid nested texts: every `{` line directly follows a
section-key line and is closed by a matching `}`, and no `}` is unmatched.
`depth` is the number of open scopes, `afterKey` tells whether the previous line was
a section-key line. -/
def wellNested : List Str → Nat → Bool → Bool
  | [], depth, _ => depth == 0
  | line :: lines, depth, afterKey =>
    if isOpen line then afterKey && wellNested lines (depth + 1) false
    else if isClose line then
      match depth with
      | 0 => false
      | d + 1 => wellNested lines d false
    else wellNested lines depth (isSectionKey line)

/-- A valid nested manifest text. -/
def validAcf (input : Str) : Bool :=
  wellNested (split input (Char.ofNat 0x0A)) 0 false

/-- The number of lines of a text that carry a non-empty value. -/
def countValueLines (input : Str) : Nat :=
  (split input (Char.ofNat 0x0A)).countP hasValue

/-- The number of key/value lines of a text. -/
def countPairLines (input : Str) : Nat :=
  (split input (Char.ofNat 0x0A)).countP isPairLine

/-- The text `t` followed by `n` lines each consisting of `}`. -/
def appendCloseLines (t : Str) (n : Nat) : Str :=
  t ++ (List.replicate n (Char.ofNat 0x0A :: rbrace)).flatten

/-- The manifest of the end-to-end scenario of the installed depots. -/
def appStateText : Str :=
  ("\"AppState\"\n\x7b\n\t\"appid\"\t\t\"376030\"\n\t\"InstalledDepots\"\n\t\x7b\n"
    ++ "\t\t\"1006\"\n\t\t\x7b\n\t\t\t\"manifest\"\t\t\"123\"\n\t\t\x7d\n\t\x7d\n\x7d\n").toList

/-- A text whose brace lines carry values: `A`, `{<TAB>x`, `}<TAB>y`. -/
def braceValueText : Str := "A\n\x7b\tx\n\x7d\ty".toList

/-! ## The descriptor encoder (`createDotMod`) -/

/-- The error returns of the parsing part of `createDotMod`. -/
inductive ModError where
  /-- "read modName". -/
  | readModName
  /-- "binary.Read(mapCnt)". -/
  | readMapCnt
  /-- "read mapName". -/
  | readMapName
  /-- "binary.Read(metaCnt)". -/
  | readMetaCnt
  /-- "read meta key". -/
  | readMetaKey
  /-- "read meta value". -/
  | readMetaValue
  deriving DecidableEq, Repr

/-- How a step of `createDotMod` ends: with a value, with an error return, or with a
slice expression out of range (the Go runtime aborts the call). -/
inductive ModResult (α : Type) where
  /-- The step produced a value. -/
  | ok (a : α)
  /-- An error value was returned. -/
  | failed (e : ModError)
  /-- `data[nread:]` or `data[4:]` was out of range. -/
  | outOfRange
  deriving DecidableEq, Repr

/-- Conversion `uint32(modId)` of a Go `int`. -/
def uint32OfInt (i : Int) : Nat := (i % 4294967296).toNat

/-- The bytes of `fmt.Sprintf("%v", modId)` for a Go `int`: its decimal digits, with a
leading minus sign when negative. -/
def decimal (i : Int) : List Byte := utf8 (toString i)

/-- The loop `for i := uint32(0); i < mapCnt; i++` of `createDotMod`, with the
number of remaining iterations as first argument. -/
def readMapNames : Nat → List Byte → List (List Byte) → ModResult (List (List Byte))
  | 0, _, mapNames => .ok mapNames
  | n + 1, data, mapNames =>
    match readUe4String data with
    | .error _ => .failed .readMapName
    | .ok (mapName, nread) =>
      if data.length < nread then .outOfRange
      else readMapNames n (data.drop nread) (mapNames ++ [mapName])

/-- The loop `for i := uint32(0); i < metaCnt; i++` of `createDotMod`, with the
number of remaining iterations as first argument; the state is `meta` and
`hasModType`. -/
def readMeta : Nat → List Byte → List (List Byte × List Byte) → Bool →
    ModResult (List (List Byte × List Byte) × Bool)
  | 0, _, pairs, hasModType => .ok (pairs, hasModType)
  | n + 1, data, pairs, hasModType =>
    match readUe4String data with
    | .error _ => .failed .readMetaKey
    | .ok (k, nread) =>
      if data.length < nread then .outOfRange
      else
        let data := data.drop nread
        match readUe4String data with
        | .error _ => .failed .readMetaValue
        | .ok (v, nread) =>
          if data.length < nread then .outOfRange
          else
            let data := data.drop nread
            let hasModType := if k = utf8 "ModType" then true else hasModType
            readMeta n data (pairs ++ [(k, v)]) hasModType

/-- The part of `createDotMod` that builds the `.mod` file: `modInfo` and
`modmetaInfo` are the contents of `mod.info` and `modmeta.info`. The result is the
content written to the `.mod` file; on the other two outcomes the file has not been
created. -/
def createDotMod (modInfo modmetaInfo : List Byte) (modId : Int) (modTitle : List Byte) :
    ModResult (List Byte) :=
  -- mod.info
  let data := modInfo
  -- modName
  match readUe4String data with
  | .error _ => .failed .readModName
  | .ok (_, nread) =>
    if data.length < nread then .outOfRange
    else
      let data := data.drop nread
      if data.length < 4 then .failed .readMapCnt
      else
        let mapCnt := u32At data 0
        let data := data.drop 4
        match readMapNames mapCnt data [] with
        | .failed e => .failed e
        | .outOfRange => .outOfRange
        | .ok mapNames =>
          -- modmeta.info
          let data := modmetaInfo
          if data.length < 4 then .failed .readMetaCnt
          else
            let metaCnt := u32At data 0
            let data := data.drop 4
            match readMeta metaCnt data [] false with
            | .failed e => .failed e
            | .outOfRange => .outOfRange
            | .ok (pairs, hasModType) =>
              -- write .mod
              .ok (le32 (uint32OfInt modId) ++ le32 0
                ++ writeUe4String modTitle
                ++ writeUe4String (utf8 "../../../ShooterGame/Content/Mods/" ++ decimal modId)
                ++ le32 mapCnt
                ++ mapNames.flatMap writeUe4String
                ++ le32 4280483635 ++ le32 2
                ++ [if hasModType then 0x01 else 0x00]
                ++ le32 metaCnt
                ++ pairs.flatMap (fun pair => writeUe4String pair.1 ++ writeUe4String pair.2))

/-- A string as `mod.info` and `modmeta.info` store it: a zero length field alone,
which stands for the empty string, or the string with its null terminator behind its
length. -/
inductive Field where
  /-- The four bytes `00 00 00 00`. -/
  | zero
  /-- The bytes `writeUe4String` writes for `s`. -/
  | text (s : List Byte)
  deriving DecidableEq, Repr

/-- The bytes of a stored string. -/
def Field.bytes : Field → List Byte
  | .zero => le32 0
  | .text s => writeUe4String s

/-- The string a stored string stands for. -/
def Field.value : Field → List Byte
  | .zero => []
  | .text s => s

/-- The length of the string, with its terminator, fits the 32-bit length field. -/
abbrev Field.fits (f : Field) : Prop := f.value.length + 1 < 2 ^ 32

/-- The content of a well-formed `mod.info`: the name string, the count of scene
names and the scene names. -/
def modInfoBytes (name : Field) (scenes : List Field) : List Byte :=
  name.bytes ++ le32 scenes.length ++ scenes.flatMap Field.bytes

/-- The content of a well-formed `modmeta.info`: the count of pairs and the
key/value strings. -/
def modmetaInfoBytes (pairs : List (Field × Field)) : List Byte :=
  le32 pairs.length ++ pairs.flatMap (fun pair => pair.1.bytes ++ pair.2.bytes)

/-! ## The container decoder (`unpackFile`) -/

/-- The fixed magic of a container: `C1 83 2A 9E 00 00 00 00`. -/
def magic : List Byte := [0xC1, 0x83, 0x2A, 0x9E, 0x00, 0x00, 0x00, 0x00]

/-- Arithmetic of the 64-bit Go `int`: the result of an operation whose exact value
is `x`, wrapped into `[-2^63, 2^63)`. -/
def wrapInt64 (x : Int) : Int :=
  (x + 9223372036854775808) % 18446744073709551616 - 9223372036854775808

/-- The two ways inflating one chunk can fail. -/
inductive ZlibError where
  /-- `zlib.NewReader` rejected the stream header. -/
  | newReader
  /-- `io.ReadAll` on the zlib reader failed. -/
  | readAll
  deriving DecidableEq, Repr

/-- The errors `unpackFile` returns from its decoding part. -/
inductive UnpackError where
  /-- "bad file magic". -/
  | badMagic
  /-- `zlib.NewReader` failed. -/
  | zlibNewReader
  /-- `io.ReadAll` failed. -/
  | ioReadAll
  /-- "unpack size is invalid. delta: ..." with the remaining value of `size`. -/
  | sizeInvalid (delta : Int)
  deriving DecidableEq, Repr

/-- How a call of `unpackFile` ends. -/
inductive Outcome where
  /-- The decode reached the end of its validation without error. -/
  | done
  /-- An error value was returned. -/
  | failed (e : UnpackError)
  /-- A slice expression was out of range: the Go runtime aborts the call. -/
  | outOfRange
  deriving DecidableEq, Repr

/-- What a call of `unpackFile` has done when it ends: how it ended, the bytes written
to the destination file, the number of chunk descriptors read and the number of
chunks handed to zlib. -/
structure UnpackRun where
  /-- How the call ended. -/
  outcome : Outcome
  /-- The bytes written to the destination file, in order. -/
  written : List Byte
  /-- The number of 16-byte chunk descriptors read. -/
  descriptors : Nat
  /-- The number of chunks handed to `zlib.NewReader`. -/
  inflated : Nat
  deriving DecidableEq, Repr

/-- The result of the chunk-table loop of `unpackFile`. -/
inductive TableResult where
  /-- The loop condition became false: the recorded compressed sizes and the data
  that follows the table. -/
  | table (chunks : List Nat) (data : List Byte)
  /-- Fewer than 16 bytes were left for a descriptor: slicing is out of range, after
  `descriptors` descriptors had been read. -/
  | outOfRange (descriptors : Nat)
  deriving DecidableEq, Repr

/-- The loop `for comprused < hdr.ComprotoLo` of `unpackFile`. With fewer than 16
bytes left, either `data[0:16]` (capacity below 16) or the following `data[16:]`
is out of range, and nothing observable happens in between. The first argument
bounds the number of iterations; `none` is returned when it is exhausted. -/
def readChunkTable (comprotoLo : Nat) :
    Nat → Nat → List Byte → List Nat → Option TableResult
  | 0, _, _, _ => none
  | fuel + 1, comprused, data, chunks =>
    if comprused < comprotoLo then
      if data.length < 16 then
        some (.outOfRange chunks.length)
      else
        let comprsizeLo := u32At data 0
        readChunkTable comprotoLo fuel (uint32 (comprused + comprsizeLo)) (data.drop 16)
          (chunks ++ [comprsizeLo])
    else
      some (.table chunks data)

/-- The result of the inflate loop of `unpackFile`. -/
inductive InflateResult where
  /-- Every chunk was inflated and written: the remaining `size`, the bytes written
  and the number of chunks inflated. -/
  | completed (size : Int) (written : List Byte) (inflated : Nat)
  /-- The loop was left early. -/
  | aborted (how : Outcome) (written : List Byte) (inflated : Nat)
  deriving DecidableEq, Repr

/-- The loop `for _, chunk := range chunks` of `unpackFile`. `inflate` stands for
`zlib.NewReader` followed by `io.ReadAll`. `slack` is what the backing array of
`data` holds between its length and its capacity: `data[0:chunk]` is in range up to
the capacity, `data[chunk:]` only up to the length. -/
def inflateChunks (inflate : List Byte → Except ZlibError (List Byte)) :
    List Nat → List Byte → List Byte → Int → List Byte → Nat → InflateResult
  | [], _, _, size, written, inflated => .completed size written inflated
  | chunk :: chunks, data, slack, size, written, inflated =>
    if data.length + slack.length < chunk then
      .aborted .outOfRange written inflated
    else
      match inflate ((data ++ slack).take chunk) with
      | .error .newReader => .aborted (.failed .zlibNewReader) written (inflated + 1)
      | .error .readAll => .aborted (.failed .ioReadAll) written (inflated + 1)
      | .ok unpackData =>
        let written := written ++ unpackData
        let size := wrapInt64 (size - unpackData.length)
        if data.length < chunk then
          .aborted .outOfRange written (inflated + 1)
        else
          inflateChunks inflate chunks (data.drop chunk) slack size written (inflated + 1)

/-- The decoding part of `unpackFile`: `data` is the content of the `.z` file,
`slack` the unused capacity behind it, `size` the parsed content of the
`.uncompressed_size` file. The result is `none` only if the chunk-table loop ran out
of its iteration bound. -/
def unpackFile (inflate : List Byte → Except ZlibError (List Byte))
    (data slack : List Byte) (size : Int) : Option UnpackRun :=
  -- parse header
  if data.length < 32 then
    some ⟨.outOfRange, [], 0, 0⟩
  else
    let hdr := data.take 32
    let data := data.drop 32
    if hdr.take 8 ≠ magic then
      some ⟨.failed .badMagic, [], 0, 0⟩
    else
      let comprotoLo := u32At hdr 16
      match readChunkTable comprotoLo (data.length + 1) 0 data [] with
      | none => none
      | some (.outOfRange descriptors) => some ⟨.outOfRange, [], descriptors, 0⟩
      | some (.table chunks data) =>
        match inflateChunks inflate chunks data slack size [] 0 with
        | .aborted how written inflated => some ⟨how, written, chunks.length, inflated⟩
        | .completed size written inflated =>
          -- validation
          if size ≠ 0 then
            some ⟨.failed (.sizeInvalid size), written, chunks.length, inflated⟩
          else
            some ⟨.done, written, chunks.length, inflated⟩

/-! ### Well-formed containers -/

/-- The header fields of a container that `unpackFile` reads but does not use. -/
structure HeaderFields where
  /-- `ChunkSizeLo`. -/
  chunkSizeLo : Nat
  /-- `ChunkSizeHi`. -/
  chunkSizeHi : Nat
  /-- `ComprotoHi`. -/
  comprotoHi : Nat
  /-- `UncomtotLo`. -/
  uncomtotLo : Nat
  /-- `UncomtotHi`. -/
  uncomtotHi : Nat

/-- One chunk of a container: its compressed bytes and the descriptor fields other
than `ComprsizeLo`, which is the length of the compressed bytes. -/
structure Chunk where
  /-- The zlib stream of the chunk. -/
  compressed : List Byte
  /-- `ComprsizeHi`. -/
  comprsizeHi : Nat
  /-- `UncomsizeLo`: the uncompressed size the descriptor declares. -/
  uncomsizeLo : Nat
  /-- `UncomsizeHi`. -/
  uncomsizeHi : Nat

/-- The 16-byte descriptor of a chunk. -/
def chunkHeader (c : Chunk) : List Byte :=
  le32 c.compressed.length ++ le32 c.comprsizeHi ++ le32 c.uncomsizeLo ++ le32 c.uncomsizeHi

/-- The sum of the compressed sizes of a chunk list. -/
def comprTotal (chunks : List Chunk) : Nat :=
  (chunks.map (fun c => c.compressed.length)).sum

/-- The sum of the uncompressed sizes the descriptors declare. -/
def declaredTotal (chunks : List Chunk) : Nat :=
  (chunks.map (fun c => c.uncomsizeLo)).sum

/-- The bytes of a container with a valid header and chunk table: magic, header
fields with the compressed total, one descriptor per chunk, then the chunks. -/
def container (h : HeaderFields) (chunks : List Chunk) : List Byte :=
  magic ++ le32 h.chunkSizeLo ++ le32 h.chunkSizeHi ++ le32 (comprTotal chunks)
    ++ le32 h.comprotoHi ++ le32 h.uncomtotLo ++ le32 h.uncomtotHi
    ++ chunks.flatMap chunkHeader ++ chunks.flatMap (fun c => c.compressed)

/-- A chunk table is valid when its sizes fit the 32-bit total and no proper prefix
of the table already reaches the total, that is, the last chunk is not empty. -/
def validTable (chunks : List Chunk) : Prop :=
  comprTotal chunks < 4294967296 ∧ ∀ c ∈ chunks.getLast?, c.compressed ≠ []

/-- What the chunks inflate to, concatenated (chunks that fail to inflate give nothing). -/
def inflatedBytes (inflate : List Byte → Except ZlibError (List Byte)) (chunks : List Chunk) :
    List Byte :=
  chunks.flatMap (fun c => match inflate c.compressed with
    | .ok unpackData => unpackData
    | .error _ => [])

/-! ### A zlib inflater for stored streams -/

/-- The Adler-32 checksum of a byte sequence. -/
def adler32 (bs : List Byte) : Nat :=
  let ab := bs.foldl (fun (ab : Nat × Nat) x =>
    let a := (ab.1 + x.val) % 65521
    (a, (ab.2 + a) % 65521)) (1, 0)
  ab.2 * 65536 + ab.1

/-- A zlib stream holding `payload` in one final stored block: header `78 01`, block
header `01`, `LEN` and its complement, the payload, and the big-endian Adler-32. -/
def zlibStored (payload : List Byte) : List Byte :=
  let len := payload.length
  let nlen := 65535 - len
  let ck := adler32 payload
  [0x78, 0x01, 0x01, Fin.ofNat len, Fin.ofNat (len / 256), Fin.ofNat nlen, Fin.ofNat (nlen / 256)]
    ++ payload
    ++ [Fin.ofNat (ck / 16777216), Fin.ofNat (ck / 65536), Fin.ofNat (ck / 256), Fin.ofNat ck]

/-- Inflation restricted to zlib streams made of one final stored block (bytes after
the checksum are not read); any other stream is reported as an error. It instantiates
the `inflate` parameter at concrete containers. -/
def inflateStored (z : List Byte) : Except ZlibError (List Byte) :=
  if z.take 2 ≠ [0x78, 0x01] then .error .newReader
  else if z.drop 2 |>.take 1 |> (· ≠ [0x01]) then .error .readAll
  else
    let len := (z.getD 3 0).val + 256 * (z.getD 4 0).val
    let nlen := (z.getD 5 0).val + 256 * (z.getD 6 0).val
    let body := z.drop 7
    if len + nlen ≠ 65535 ∨ body.length < len + 4 then .error .readAll
    else
      let payload := body.take len
      let ck := adler32 payload
      if (body.drop len).take 4 =
          [Fin.ofNat (ck / 16777216), Fin.ofNat (ck / 65536), Fin.ofNat (ck / 256), Fin.ofNat ck]
      then .ok payload
      else .error .readAll

/-! ### Concrete containers -/

/-- A single chunk whose zlib stream inflates to 90 zero bytes. -/
def ninetyChunk : Chunk := ⟨zlibStored (List.replicate 90 0), 0, 90, 0⟩

/-- A container whose single chunk inflates to 90 bytes. -/
def ninetyContainer : List Byte := container ⟨0, 0, 0, 100, 0⟩ [ninetyChunk]

/-- A single chunk that inflates to the three bytes `abc` while its descriptor
declares an uncompressed size of 5. -/
def abcChunk : Chunk := ⟨zlibStored [97, 98, 99], 0, 5, 0⟩

/-- A container holding `abcChunk`, with 3 as the uncompressed total of its header. -/
def abcContainer : List Byte := container ⟨0, 0, 0, 3, 0⟩ [abcChunk]

/-! ### Further concrete inputs -/

/-- The value of `comprused` after the chunk-table loop has added the compressed
sizes `chunks` to the initial value `comprused`, in 32-bit arithmetic. -/
def runningSumFrom (comprused : Nat) (chunks : List Nat) : Nat :=
  chunks.foldl (fun acc c => uint32 (acc + c)) comprused

/-- A container whose header declares a compressed total of 10 while its single
chunk descriptor declares the 14 compressed bytes of `abcChunk`. -/
def overshootContainer : List Byte :=
  magic ++ le32 0 ++ le32 0 ++ le32 10 ++ le32 0 ++ le32 3 ++ le32 0
    ++ chunkHeader abcChunk ++ abcChunk.compressed

/-- A `mod.info` whose name announces two bytes and carries one: `02 00 00 00 61`. -/
def truncatedModInfo : List Byte := [2, 0, 0, 0, 97]

/-- A `modmeta.info` with one pair whose key announces three bytes and carries one. -/
def truncatedModmetaInfo : List Byte := le32 1 ++ [3, 0, 0, 0, 97]

/-- The two fields of a line after the white space around them is removed and before
the quotes are (the statements of the loop body of `readAcf` up to the second
`strings.TrimSpace`). -/
def rawFields (line : Str) : Str × Str :=
  let line := trimSpace line
  let arr := splitN2 line (Char.ofNat 0x09)
  let k := if arr.length > 0 then arr.getD 0 [] else []
  let v := if arr.length > 1 then arr.getD 1 [] else []
  (trimSpace k, trimSpace v)

/-- The line `a<TAB>""b""`, whose value is written with two layers of quotes. -/
def doubleQuotedLine : Str := "a\t\"\"b\"\"".toList

/-- The text `"A"`, blank line, `{`, `"k"<TAB>"v"`, `}`. -/
def blankLineText : Str := "\"A\"\n\n\x7b\n\"k\"\t\"v\"\n\x7d".toList

/-! ## The update decisions (`HasUpdate`, `UpdateRequiredMods`) -/

/-- A Go `map[string]string` as the list of its assignments, latest first. -/
abbrev StrMap := List (Str × Str)

/-- The lookup `v, ok := m[k]`: the value of the latest assignment to `k`. -/
def mapFind : StrMap → Str → Option Str
  | [], _ => none
  | (k1, v) :: rest, k => if k1 = k then some v else mapFind rest k

/-- The value `m[k]`, the empty string when `k` has no assignment. -/
def mapGet (m : StrMap) (k : Str) : Str := (mapFind m k).getD []

/-- The result of code that indexes slices: a value, or an index out of range (the
Go runtime aborts the call). -/
inductive Indexed (α : Type) where
  /-- The code ran to its end. -/
  | value (a : α)
  /-- An index expression `arr[i]` had `i >= len(arr)`. -/
  | outOfRange
  deriving DecidableEq, Repr

/-- The first loop of `HasUpdate`, over the pairs of the remote application info:
`steamInfo[arr[3]] = pair[1]` when `arr[2] == "depots" && arr[4] == "manifests" &&
arr[5] == "public"`, the conditions being evaluated from left to right. -/
def steamInfoLoop : List (Str × Str) → StrMap → Indexed StrMap
  | [], steamInfo => .value steamInfo
  | pair :: pairs, steamInfo =>
    let arr := split pair.1 (Char.ofNat 0x2E)
    if arr.length ≤ 2 then .outOfRange
    else if arr.getD 2 [] = "depots".toList then
      if arr.length ≤ 4 then .outOfRange
      else if arr.getD 4 [] = "manifests".toList then
        if arr.length ≤ 5 then .outOfRange
        else if arr.getD 5 [] = "public".toList then
          steamInfoLoop pairs ((arr.getD 3 [], pair.2) :: steamInfo)
        else steamInfoLoop pairs steamInfo
      else steamInfoLoop pairs steamInfo
    else steamInfoLoop pairs steamInfo

/-- The second loop of `HasUpdate`, over the pairs of the local manifest:
`localInfo[arr[3]] = pair[1]` when `arr[1] == "AppState" && arr[2] ==
"InstalledDepots" && arr[4] == "manifest"`. -/
def localInfoLoop : List (Str × Str) → StrMap → Indexed StrMap
  | [], localInfo => .value localInfo
  | pair :: pairs, localInfo =>
    let arr := split pair.1 (Char.ofNat 0x2E)
    if arr.length ≤ 1 then .outOfRange
    else if arr.getD 1 [] = "AppState".toList then
      if arr.length ≤ 2 then .outOfRange
      else if arr.getD 2 [] = "InstalledDepots".toList then
        if arr.length ≤ 4 then .outOfRange
        else if arr.getD 4 [] = "manifest".toList then
          localInfoLoop pairs ((arr.getD 3 [], pair.2) :: localInfo)
        else localInfoLoop pairs localInfo
      else localInfoLoop pairs localInfo
    else localInfoLoop pairs localInfo

/-- The decision of `HasUpdate` as a function of the pairs `ReadAcf` returned for the
remote application info (`steamPairs`) and for the local manifest (`localPairs`):
the two maps are built, then every key of `localInfo` is compared. -/
def HasUpdate (steamPairs localPairs : List (Str × Str)) : Indexed Bool :=
  match steamInfoLoop steamPairs [] with
  | .outOfRange => .outOfRange
  | .value steamInfo =>
    match localInfoLoop localPairs [] with
    | .outOfRange => .outOfRange
    | .value localInfo =>
      -- compare
      .value (localInfo.any (fun kv => mapGet steamInfo kv.1 != mapGet localInfo kv.1))

/-- What `readYaml` returns for the version record of an item. -/
inductive YamlRead where
  /-- The record file does not exist (`os.IsNotExist(err)`). -/
  | notExist
  /-- Another error. -/
  | failed
  /-- The record that was read. -/
  | record (title : Str) (updated : Int)
  deriving DecidableEq, Repr

/-- The error returns of `UpdateRequiredMods`. -/
inductive ModsError where
  /-- `getPublishedFileDetails` failed for the item. -/
  | details (modId : Int)
  /-- "open mod .yaml". -/
  | yaml
  deriving DecidableEq, Repr

/-- The loop of `UpdateRequiredMods`, with the remote lookup and the reading of the
local version record as parameters and the current value of `required`. -/
def updateRequiredLoop (getPublishedFileDetails : Int → Option (Str × Int))
    (readYaml : Int → YamlRead) : List Int → List Int → Except ModsError (List Int)
  | [], required => .ok required
  | modId :: modIds, required =>
    -- fetch from steam
    match getPublishedFileDetails modId with
    | none => .error (.details modId)
    | some (_, steamUpdated) =>
      -- fetch from local
      match readYaml modId with
      | .failed => .error .yaml
      | .notExist =>
        let localUpdated := 0
        if steamUpdated = localUpdated then
          updateRequiredLoop getPublishedFileDetails readYaml modIds required
        else
          updateRequiredLoop getPublishedFileDetails readYaml modIds (required ++ [modId])
      | .record _ localUpdated =>
        if steamUpdated = localUpdated then
          updateRequiredLoop getPublishedFileDetails readYaml modIds required
        else
          updateRequiredLoop getPublishedFileDetails readYaml modIds (required ++ [modId])

/-- The function `UpdateRequiredMods`. -/
def UpdateRequiredMods (getPublishedFileDetails : Int → Option (Str × Int))
    (readYaml : Int → YamlRead) (modIds : List Int) : Except ModsError (List Int) :=
  updateRequiredLoop getPublishedFileDetails readYaml modIds []

/-- The remote lookup that succeeds for every item with the given titles and
time-updated values. -/
def detailsOf (title : Int → Str) (remote : Int → Int) (modId : Int) : Option (Str × Int) :=
  some (title modId, remote modId)

/-- The reading of the local version records described by `recordOf`: the time stamp
of the record of an item, `none` when the item has no record. -/
def yamlOf (title : Int → Str) (recordOf : Int → Option Int) (modId : Int) : YamlRead :=
  match recordOf modId with
  | none => .notExist
  | some updated => .record (title modId) updated

/-! ## The responders of `UpdateMods` and `UpdateServer` -/

/-- Whether `s` begins with `p`. -/
def startsWith (s p : List Byte) : Bool := s.take p.length == p

/-- The test `strings.Index(out, substr) != -1`. -/
def contains (out substr : List Byte) : Bool :=
  out.tails.any (fun t => startsWith t substr)

/-- The marker of a completed log-on. -/
def logonMarker : List Byte := utf8 "Waiting for user info...OK"

/-- The marker `fmt.Sprintf("Success. Downloaded item %v", modId)`. -/
def successMarker (modId : Int) : List Byte :=
  utf8 "Success. Downloaded item " ++ decimal modId

/-- The marker `fmt.Sprintf("Success! App '%v' fully installed.", appId)`. -/
def installedMarker (appId : Int) : List Byte :=
  utf8 "Success! App \x27" ++ decimal appId ++ utf8 "\x27 fully installed."

/-- The command `fmt.Sprintf("force_install_dir %v", steamcmd.installDir)`. -/
def forceInstallDirCmd (installDir : List Byte) : List Byte :=
  utf8 "force_install_dir " ++ installDir

/-- The command `login anonymous`. -/
def loginCmd : List Byte := utf8 "login anonymous"

/-- The command `fmt.Sprintf("workshop_download_item %v %v", appId, modId)`. -/
def downloadCmd (appId modId : Int) : List Byte :=
  utf8 "workshop_download_item " ++ decimal appId ++ utf8 " " ++ decimal modId

/-- The command `fmt.Sprintf("app_update %v validate", appId)`. -/
def appUpdateCmd (appId : Int) : List Byte :=
  utf8 "app_update " ++ decimal appId ++ utf8 " validate"

/-- The command `quit`. -/
def quitCmd : List Byte := utf8 "quit"

/-- The variables the responder of `UpdateMods` captures. -/
structure ModsState where
  /-- `bInstallDir`. -/
  bInstallDir : Bool
  /-- `bLogon`. -/
  bLogon : Bool
  /-- `modIds`: the items still to download. -/
  modIds : List Int
  /-- `downloadIds`: the items downloaded. -/
  downloadIds : List Int
  deriving DecidableEq, Repr

/-- One call of the responder of `UpdateMods` on the output `out`: the new values of
the captured variables and the command returned, or `none` when `modIds[0]` is
evaluated on an empty `modIds` (index out of range). -/
def updateModsResponder (installDir : List Byte) (appId : Int) (s : ModsState)
    (out : List Byte) : Option (ModsState × List Byte) :=
  let bLogon := if contains out logonMarker then true else s.bLogon
  match s.modIds with
  | [] => none
  | head :: tail =>
    let found := contains out (successMarker head)
    let downloadIds := if found then s.downloadIds ++ [head] else s.downloadIds
    let modIds := if found then tail else head :: tail
    if !s.bInstallDir then
      some (⟨true, bLogon, modIds, downloadIds⟩, forceInstallDirCmd installDir)
    else if !bLogon then
      some (⟨s.bInstallDir, bLogon, modIds, downloadIds⟩, loginCmd)
    else
      match modIds with
      | modId :: _ => some (⟨s.bInstallDir, bLogon, modIds, downloadIds⟩, downloadCmd appId modId)
      | [] => some (⟨s.bInstallDir, bLogon, modIds, downloadIds⟩, quitCmd)

/-- The variables the responder of `UpdateServer` captures. -/
structure ServerState where
  /-- `bInstallDir`. -/
  bInstallDir : Bool
  /-- `bLogon`. -/
  bLogon : Bool
  /-- `bDownload`. -/
  bDownload : Bool
  deriving DecidableEq, Repr

/-- One call of the responder of `UpdateServer` on the output `out`. -/
def updateServerResponder (installDir : List Byte) (appId : Int) (s : ServerState)
    (out : List Byte) : Option (ServerState × List Byte) :=
  let bLogon := if contains out logonMarker then true else s.bLogon
  let bDownload := if contains out (installedMarker appId) then true else s.bDownload
  if !s.bInstallDir then
    some (⟨true, bLogon, bDownload⟩, forceInstallDirCmd installDir)
  else if !bLogon then
    some (⟨s.bInstallDir, bLogon, bDownload⟩, loginCmd)
  else if !bDownload then
    some (⟨s.bInstallDir, bLogon, true⟩, appUpdateCmd appId)
  else
    some (⟨s.bInstallDir, bLogon, bDownload⟩, quitCmd)

/-- The calls of a responder on the outputs of successive prompts: after each call the
values of its variables and the command it returned. The list ends where a call does
not return. -/
def session {σ : Type} (responder : σ → List Byte → Option (σ × List Byte)) :
    σ → List (List Byte) → List (σ × List Byte)
  | _, [] => []
  | s, out :: outs =>
    match responder s out with
    | none => []
    | some (s1, cmd) => (s1, cmd) :: session responder s1 outs

/-- The values of the variables of a responder after the prompts `outs`, `none` when a
call did not return. -/
def stateAfter {σ : Type} (responder : σ → List Byte → Option (σ × List Byte)) :
    σ → List (List Byte) → Option σ
  | s, [] => some s
  | s, out :: outs =>
    match responder s out with
    | none => none
    | some (s1, _) => stateAfter responder s1 outs

/-- The commands a responder returns on the outputs of successive prompts. -/
def commands {σ : Type} (responder : σ → List Byte → Option (σ × List Byte)) (s : σ)
    (outs : List (List Byte)) : List (List Byte) :=
  (session responder s outs).map Prod.snd

/-- The variables of the responder of `UpdateMods` when the session starts. -/
def modsStart (modIds : List Int) : ModsState := ⟨false, false, modIds, []⟩

/-- The variables of the responder of `UpdateServer` when the session starts. -/
def serverStart : ServerState := ⟨false, false, false⟩

/-- The install directory of the examples. -/
def arkDir : List Byte := utf8 "/ark"

/-! ## The reader loop of `Run` -/

/-- The prompt token `Steam>`. -/
def prompt : List Byte := utf8 "Steam>"

/-- The white space of one byte: tab, line feed, vertical tab, form feed, carriage
return and space. -/
def asciiSpace (a : Byte) : Bool :=
  a == 0x09 || a == 0x0A || a == 0x0B || a == 0x0C || a == 0x0D || a == 0x20

/-- The white space of two bytes `b a`: U+0085 and U+00A0. -/
def space2 (b a : Byte) : Bool :=
  b == 0xC2 && (a == 0x85 || a == 0xA0)

/-- The white space of three bytes `c b a`: U+1680, U+2000 to U+200A, U+2028, U+2029,
U+202F, U+205F and U+3000. -/
def space3 (c b a : Byte) : Bool :=
  (c == 0xE1 && b == 0x9A && a == 0x80)
    || (c == 0xE2 && b == 0x80 &&
        ((decide (0x80 ≤ a.val) && decide (a.val ≤ 0x8A)) || a == 0xA8 || a == 0xA9 || a == 0xAF))
    || (c == 0xE2 && b == 0x81 && a == 0x9F)
    || (c == 0xE3 && b == 0x80 && a == 0x80)

/-- The function `strings.TrimRightFunc(line, unicode.IsSpace)` on the reversed
bytes of `line`: the encodings of white space runes are removed from the front. -/
def trimSpaceRev : List Byte → List Byte
  | a :: b :: c :: t =>
    if asciiSpace a then trimSpaceRev (b :: c :: t)
    else if space2 b a then trimSpaceRev (c :: t)
    else if space3 c b a then trimSpaceRev t
    else a :: b :: c :: t
  | [a, b] =>
    if asciiSpace a then trimSpaceRev [b]
    else if space2 b a then []
    else [a, b]
  | [a] => if asciiSpace a then [] else [a]
  | [] => []

/-- The function `strings.TrimRightFunc(line, unicode.IsSpace)`. -/
def trimRightSpace (line : List Byte) : List Byte :=
  (trimSpaceRev line.reverse).reverse

/-- The string `strings.Join(lines, "\n")`. -/
def joinLines (lines : List (List Byte)) : List Byte :=
  List.intercalate [0x0A] lines

/-- What one iteration of the reader loop of `Run` obtains from the buffered reader:
the prompt token under `Peek(6)`, or the result of `ReadLine`. -/
inductive ReadEvent where
  /-- `Peek(6)` returned `Steam>`, which is then discarded. -/
  | prompt
  /-- `ReadLine` returned `data` and ` isPrefix`. -/
  | line (data : List Byte) ( isPrefix : Bool)
  deriving DecidableEq, Repr

/-- The variables of the reader loop of `Run`, and the arguments the responder `fn`
has been called with so far. -/
structure Driver where
  /-- The variable that holds the fragment of an unfinished line. -/
  pfx : List Byte
  /-- `lines`: the lines read since the last prompt. -/
  lines : List (List Byte)
  /-- The arguments of the calls of `fn`, in order. -/
  calls : List (List Byte)
  deriving DecidableEq, Repr

/-- One iteration of the reader loop of `Run`. -/
def driverStep (d : Driver) : ReadEvent → Driver
  | .prompt =>
    let outs := joinLines d.lines
    { d with lines := [], calls := d.calls ++ [outs] }
  | .line data true => { d with pfx := data }
  | .line data false =>
    let line := d.pfx ++ data
    let line := trimRightSpace line
    if line = [] then { d with pfx := [] }
    else { d with pfx := [], lines := d.lines ++ [line] }

/-- The reader loop of `Run` on the successive results of the buffered reader. -/
def driverRun (d : Driver) (events : List ReadEvent) : Driver :=
  events.foldl driverStep d

/-- The variables of the reader loop when it starts. -/
def driverStart : Driver := ⟨[], [], []⟩

/-- The method `ReadLine` of a `bufio.Reader` with a buffer of `size` bytes, on the
unread bytes `s` of its source (not empty): the data, the continuation flag and the
bytes left unread. -/
def readLine (size : Nat) (s : List Byte) : List Byte × Bool × List Byte :=
  match (s.take size).span (fun b => b != 0x0A) with
  | (line, _ :: _) =>
    -- a line feed within the buffer: the line without its "\n" or "\r\n"
    let rest := s.drop (line.length + 1)
    if line.getLast? = some 0x0D then (line.dropLast, false, rest) else (line, false, rest)
  | (frag, []) =>
    if size ≤ s.length then
      -- the buffer is full: a trailing "\r" is put back
      if frag.getLast? = some 0x0D then (frag.dropLast, true, s.drop (size - 1))
      else (frag, true, s.drop size)
    else
      -- the source ended without a line feed
      (frag, false, [])

/-- The results the buffered reader delivers to the reader loop of `Run` for the
output `s` of the child: the loop ends when `Peek(6)` fails. The second argument
bounds the number of iterations; `none` is returned when it is exhausted. -/
def events (size : Nat) : Nat → List Byte → Option (List ReadEvent)
  | 0, _ => none
  | fuel + 1, s =>
    if s.length < 6 then some []
    else if s.take 6 = prompt then
      (events size fuel (s.drop 6)).map (fun evs => ReadEvent.prompt :: evs)
    else
      match readLine size s with
      | (data, more, rest) =>
        (events size fuel rest).map (fun evs => ReadEvent.line data more :: evs)

/-- The buffer size of `bufio.NewReader`. -/
def defaultBufSize : Nat := 4096

/-- The arguments of the calls of the responder `fn` that `Run` makes for the output
`s` of the child, in order. -/
def responderCalls (s : List Byte) : Option (List (List Byte)) :=
  (events defaultBufSize (s.length + 1) s).map (fun evs => (driverRun driverStart evs).calls)

/-- The output `Steam>a`, `b`, `c`, each with a line feed, then the prompt twice. -/
def promptLineStream : List Byte := utf8 "Steam>a\nb\nc\nSteam>Steam>"

/-- The output `a `, `b`, `c`, each with a line feed, then the prompt twice. -/
def spaceLineStream : List Byte := utf8 "a \nb\nc\nSteam>Steam>"

/-- The results of `ReadLine` for one line delivered as the fragments `fs`, each with
the continuation flag set, and a last fragment without it. -/
def fragmentEvents (fs : List (List Byte)) (last : List Byte) : List ReadEvent :=
  fs.map (fun f => ReadEvent.line f true) ++ [ReadEvent.line last false]

/-- An output line of 8193 bytes, 4096 times `a`, 4096 times `b` and `c`, with its
line feed, followed by the prompt. -/
def longLineStream : List Byte :=
  List.replicate 4096 97 ++ (List.replicate 4096 98 ++ ([99] ++ 0x0A :: (prompt ++ [])))

/-! ### Inputs for the command order, the depot filters and the decode bounds -/

/-- The commands the responder of `UpdateServer` returns in one session, on the
outputs of its successive prompts. -/
def updateServerCommands (installDir : List Byte) (appId : Int) (outs : List (List Byte)) :
    List (List Byte) :=
  commands (updateServerResponder installDir appId) serverStart outs

/-- The outputs of a session of four prompts in which the log-on marker is seen at the
second prompt. -/
def logonAtSecondPrompt : List (List Byte) := [[], logonMarker, [], []]

/-- A manifest text with one top-level pair: `"key"<TAB>"value"`. -/
def topLevelPairText : Str := "\"key\"\t\"value\"".toList

/-- A manifest text with a pair directly under `depots`. -/
def underDepotsText : Str :=
  "\"376030\"\n\x7b\n\"depots\"\n\x7b\n\"baselanguages\"\t\"english\"\n\x7d\n\x7d".toList

/-- A manifest text with a pair directly under `InstalledDepots`. -/
def underInstalledDepotsText : Str :=
  "\"AppState\"\n\x7b\n\"InstalledDepots\"\n\x7b\n\"1006\"\t\"123\"\n\x7d\n\x7d".toList

/-- A container whose header declares a compressed total of 20 and whose data ends
after the descriptor of `abcChunk`, which declares 14 compressed bytes. -/
def tablePastEndContainer : List Byte :=
  magic ++ le32 0 ++ le32 0 ++ le32 20 ++ le32 0 ++ le32 3 ++ le32 0 ++ chunkHeader abcChunk

/-- A container whose single descriptor declares 15 compressed bytes and which carries
the 14 bytes of the zlib stream of `abc`. -/
def shortPayloadContainer : List Byte :=
  magic ++ le32 0 ++ le32 0 ++ le32 15 ++ le32 0 ++ le32 3 ++ le32 0
    ++ (le32 15 ++ le32 0 ++ le32 3 ++ le32 0) ++ zlibStored [97, 98, 99]

/-- A chunk whose three bytes are no zlib stream: `zlib.NewReader` rejects the header
`00 00`. -/
def garbageChunk : Chunk := ⟨[0, 0, 0], 0, 0, 0⟩

/-- A container with a valid header and chunk table whose first chunk inflates to
`abc` and whose second chunk is `garbageChunk`. -/
def failedChunkContainer : List Byte := container ⟨0, 0, 0, 3, 0⟩ [abcChunk, garbageChunk]

/-! ### Codec lemmas -/

theorem u32_le32 (n : Nat) :
    ∃ b0 b1 b2 b3 : Byte, le32 n = [b0, b1, b2, b3] ∧ u32 b0 b1 b2 b3 = n % 4294967296 := by
  refine ⟨_, _, _, _, rfl, ?_⟩
  simp only [u32, Fin.ofNat, Fin.val_mk]
  omega

theorem le32_u32 (b0 b1 b2 b3 : Byte) : le32 (u32 b0 b1 b2 b3) = [b0, b1, b2, b3] := by
  simp only [le32, u32, Fin.ofNat, List.cons.injEq, Fin.ext_iff, and_true]
  omega

theorem le32_length (n : Nat) : (le32 n).length = 4 := rfl

theorem bufferRead_exact (buf : List Byte) : bufferRead buf buf.length = buf := by
  simp [bufferRead]

/-- Decoding what the encoder wrote, whatever follows it in the buffer, for every
string whose length fits the field. -/
theorem readUe4String_writeUe4String_append (s rest : List Byte)
    (hlen : s.length + 1 < 2 ^ 32) :
    readUe4String (writeUe4String s ++ rest) = .ok (s, 4 + s.length + 1) := by
  obtain ⟨b0, b1, b2, b3, hb, hu⟩ := u32_le32 (uint32 (s ++ [0]).length)
  have hl : u32 b0 b1 b2 b3 = s.length + 1 := by
    rw [hu]; simp only [uint32, List.length_append, List.length_singleton]; omega
  have hread : bufferRead (s ++ [0] ++ rest) (s.length + 1) = s ++ [0] := by
    have hlen1 : (s ++ [(0 : Byte)]).length = s.length + 1 := by simp
    unfold bufferRead
    rw [← hlen1, List.take_left' rfl]
    simp
  simp only [writeUe4String, hb, List.cons_append, List.nil_append, readUe4String, hl]
  have hne : ¬ (s.length + 1 ≤ 0) := by omega
  have hemp : (s ++ [(0 : Byte)] ++ rest).isEmpty = false := by
    cases s <;> rfl
  simp only [hne, if_false, ← List.append_assoc, hemp, hread, Bool.false_eq_true]
  simp [Nat.add_assoc]

theorem writeUe4String_length (s : List Byte) : (writeUe4String s).length = 4 + s.length + 1 := by
  simp [writeUe4String, le32_length]
  omega

/-! ### The claims on the codec -/

/-- C1: for every string `s` without embedded null bytes whose length plus one fits
in 32 bits, `readUe4String` on the bytes written by `writeUe4String s` succeeds and
returns exactly `(s, 4 + len(s) + 1)`. -/
theorem C1_codec_round_trip (s : List Byte) (hnull : (0 : Byte) ∉ s)
    (hlen : s.length + 1 < 2 ^ 32) :
    readUe4String (writeUe4String s) = .ok (s, 4 + s.length + 1) :=
  have _ := hnull
  (List.append_nil (writeUe4String s)) ▸ readUe4String_writeUe4String_append s [] hlen

/-- Witness for C1 at the string `"hello!!!"`. -/
theorem C1_codec_round_trip_witness :
    (0 : Byte) ∉ hello ∧ hello.length + 1 < 2 ^ 32 ∧
      readUe4String (writeUe4String hello) = .ok (hello, 4 + hello.length + 1) :=
  ⟨by decide, by decide, C1_codec_round_trip hello (by decide) (by decide)⟩

/-- C6: a source holding fewer than `4 + L` bytes is not rejected. The five bytes
`02 00 00 00 61` announce `L = 2` but carry one byte of payload; `readUe4String`
returns the string `"a"` and a consumed count of 6 instead of an error. -/
theorem C6_truncated_string_accepted :
    ([2, 0, 0, 0, 97] : List Byte).length < 4 + u32 2 0 0 0 ∧
      readUe4String [2, 0, 0, 0, 97] = .ok ([97], 6) :=
  ⟨by decide, rfl⟩

/-- C7 as stated fails: the four bytes `00 00 00 00` decode in full to the empty
string, which encodes to `01 00 00 00 00`; and `02 00 00 00 61 62` decodes in full to
`"a"`, which encodes to `02 00 00 00 61 00`. -/
theorem C7_reverse_round_trip_counterexample :
    (readUe4String [0, 0, 0, 0] = .ok ([], ([0, 0, 0, 0] : List Byte).length) ∧
        (0 : Byte) ∉ ([] : List Byte) ∧ writeUe4String [] ≠ [0, 0, 0, 0]) ∧
      (readUe4String [2, 0, 0, 0, 97, 98] =
          .ok ([97], ([2, 0, 0, 0, 97, 98] : List Byte).length) ∧
        (0 : Byte) ∉ ([97] : List Byte) ∧ writeUe4String [97] ≠ [2, 0, 0, 0, 97, 98]) :=
  ⟨⟨rfl, by decide, by decide⟩, ⟨rfl, by decide, by decide⟩⟩

/-- C7 (amended): for every byte sequence `x` whose length field is not zero and whose
last byte is the null terminator, if `readUe4String` decodes `x` successfully,
consuming all of `x`, to a string without embedded null bytes, then `writeUe4String`
applied to the decoded string produces exactly `x`. -/
theorem C7_reverse_round_trip (x s : List Byte) (n : Nat)
    (hdec : readUe4String x = .ok (s, n)) (hall : n = x.length)
    (hnull : (0 : Byte) ∉ s) (hlen : x.take 4 ≠ le32 0) (hterm : x.getLast? = some 0) :
    writeUe4String s = x := by
  have _ := hnull
  match x, hdec, hall, hlen, hterm with
  | b0 :: b1 :: b2 :: b3 :: rest, hdec, hall, hlen, hterm =>
    have hl0 : ¬ (u32 b0 b1 b2 b3 ≤ 0) := by
      intro h0
      apply hlen
      have h := le32_u32 b0 b1 b2 b3
      rw [Nat.le_zero.mp h0] at h
      simpa using h.symm
    simp only [readUe4String, hl0, if_false] at hdec
    cases hrest : rest.isEmpty with
    | true => simp [hrest] at hdec
    | false =>
      simp only [hrest, Bool.false_eq_true, if_false, Except.ok.injEq, Prod.mk.injEq] at hdec
      obtain ⟨hs, hn⟩ := hdec
      have hl : u32 b0 b1 b2 b3 = rest.length := by
        simp only [List.length_cons] at hall; omega
      rw [hl, bufferRead_exact] at hs
      have hne : rest ≠ [] := by
        intro h; simp [h] at hrest
      have hlast : rest.getLast? = some 0 := by
        have h4 : (b0 :: b1 :: b2 :: b3 :: rest).getLast? = rest.getLast? := by
          cases rest with
          | nil => exact absurd rfl hne
          | cons a t => simp [List.getLast?_cons_cons]
        rw [← h4]; exact hterm
      have hsplit : rest = s ++ [0] := by
        have h1 := List.dropLast_append_getLast? 0 (Option.mem_def.mpr hlast)
        rw [hs] at h1; exact h1.symm
      have hlen1 : s.length + 1 = u32 b0 b1 b2 b3 := by
        rw [hl, hsplit]; simp
      have hlt : u32 b0 b1 b2 b3 < 4294967296 := by
        simp only [u32]; omega
      have hw : writeUe4String s = le32 (u32 b0 b1 b2 b3) ++ (s ++ [0]) := by
        simp only [writeUe4String, uint32, List.length_append, List.length_singleton, hlen1,
          Nat.mod_eq_of_lt hlt]
      rw [hw, le32_u32, ← hsplit]
      rfl
  | [], hdec, _, _, _ => simp [readUe4String] at hdec
  | [_], hdec, _, _, _ => simp [readUe4String] at hdec
  | [_, _], hdec, _, _, _ => simp [readUe4String] at hdec
  | [_, _, _], hdec, _, _, _ => simp [readUe4String] at hdec

/-- Witness for C7 (amended) at the encoding of `"hello!!!"`. -/
theorem C7_reverse_round_trip_witness :
    readUe4String [9, 0, 0, 0, 104, 101, 108, 108, 111, 33, 33, 33, 0] = .ok (hello, 13) ∧
      writeUe4String hello = [9, 0, 0, 0, 104, 101, 108, 108, 111, 33, 33, 33, 0] :=
  ⟨rfl, C7_reverse_round_trip [9, 0, 0, 0, 104, 101, 108, 108, 111, 33, 33, 33, 0] hello 13
    rfl rfl (by decide) (by decide) rfl⟩

/-- C8: on the encoding of `"hello!!!"` the decode reports 13 consumed bytes, where
the test `TestUe4String` of the repository asserts 12. `writeUe4String` produces the
length field 9, the 8 bytes of `hello!!!` and a zero byte, 13 bytes in all, and
`readUe4String` on them returns `("hello!!!", 13)`, not `("hello!!!", 12)`. -/
theorem C8_hello_nread :
    writeUe4String hello = le32 9 ++ [104, 101, 108, 108, 111, 33, 33, 33] ++ [0] ∧
      le32 9 = [9, 0, 0, 0] ∧
      (writeUe4String hello).length = 13 ∧
      readUe4String (writeUe4String hello) = .ok (hello, 13) ∧
      readUe4String (writeUe4String hello) ≠ .ok (hello, 12) :=
  ⟨rfl, rfl, rfl, rfl, by
    intro h
    have h13 : readUe4String (writeUe4String hello) = .ok (hello, 13) := rfl
    rw [h13] at h
    simp at h⟩

/-! ### Container lemmas -/

theorem wrapInt64_of_range (x : Int) (hlo : -9223372036854775808 ≤ x)
    (hhi : x < 9223372036854775808) : wrapInt64 x = x := by
  unfold wrapInt64
  omega

theorem u32At_le32_append (n : Nat) (rest : List Byte) :
    u32At (le32 n ++ rest) 0 = n % 4294967296 := by
  simp only [u32At, le32, u32, Fin.ofNat, List.cons_append, List.getD_cons_zero,
    List.getD_cons_succ, Fin.val_mk]
  omega

theorem chunkHeader_length (c : Chunk) : (chunkHeader c).length = 16 := rfl

theorem comprTotal_cons (c : Chunk) (cs : List Chunk) :
    comprTotal (c :: cs) = c.compressed.length + comprTotal cs := by
  simp [comprTotal]

/-- On the descriptors of a valid table the chunk-table loop records every compressed
size and stops exactly at the start of the chunk data. -/
theorem readChunkTable_valid (total : Nat) (htot : total < 4294967296) :
    ∀ (chunks : List Chunk) (fuel comprused : Nat) (acc : List Nat) (rest : List Byte),
      comprused + comprTotal chunks = total →
      (∀ c ∈ chunks.getLast?, c.compressed ≠ []) →
      chunks.length < fuel →
      readChunkTable total fuel comprused (chunks.flatMap chunkHeader ++ rest) acc =
        some (.table (acc ++ chunks.map (fun c => c.compressed.length)) rest) := by
  intro chunks
  induction chunks with
  | nil =>
    intro fuel comprused acc rest hsum _ hfuel
    cases fuel with
    | zero => simp at hfuel
    | succ fuel =>
      have : ¬ comprused < total := by simp [comprTotal] at hsum; omega
      simp [readChunkTable, this]
  | cons c cs ih =>
    intro fuel comprused acc rest hsum hlast hfuel
    cases fuel with
    | zero => simp at hfuel
    | succ fuel =>
      rw [comprTotal_cons] at hsum
      have hpos : 0 < c.compressed.length + comprTotal cs := by
        cases cs with
        | nil =>
          have := hlast c (by simp)
          have := List.length_pos.mpr this
          omega
        | cons d ds =>
          obtain ⟨e, he⟩ : ∃ e, (c :: d :: ds).getLast? = some e := by
            simp [List.getLast?_eq_getLast]
          have hne := hlast e (Option.mem_def.mpr he)
          have hmem : e ∈ d :: ds := by
            rw [List.getLast?_cons_cons] at he
            exact List.mem_of_getLast?_eq_some he
          have hle : e.compressed.length ≤ comprTotal (d :: ds) := by
            unfold comprTotal
            exact List.single_le_sum (by simp) _ (List.mem_map_of_mem _ hmem)
          have := List.length_pos.mpr hne
          omega
      have hlt : comprused < total := by omega
      have hlen : ¬ ((c :: cs).flatMap chunkHeader ++ rest).length < 16 := by
        simp [List.flatMap_cons, chunkHeader_length]
      have hsize : u32At ((c :: cs).flatMap chunkHeader ++ rest) 0 = c.compressed.length := by
        have h := u32At_le32_append c.compressed.length
          (le32 c.comprsizeHi ++ le32 c.uncomsizeLo ++ le32 c.uncomsizeHi
            ++ (cs.flatMap chunkHeader ++ rest))
        rw [Nat.mod_eq_of_lt (by omega)] at h
        rw [← h]
        simp [List.flatMap_cons, chunkHeader, List.append_assoc]
      have hdrop : ((c :: cs).flatMap chunkHeader ++ rest).drop 16 =
          cs.flatMap chunkHeader ++ rest := by
        rw [List.flatMap_cons, List.append_assoc]
        exact List.drop_left' (chunkHeader_length c)
      have hused : uint32 (comprused + c.compressed.length) = comprused + c.compressed.length := by
        unfold uint32
        exact Nat.mod_eq_of_lt (by omega)
      have hlast2 : ∀ e ∈ cs.getLast?, e.compressed ≠ [] := by
        intro e he
        cases cs with
        | nil => simp at he
        | cons d ds =>
          apply hlast e
          rw [List.getLast?_cons_cons]
          exact he
      rw [readChunkTable, if_pos hlt, if_neg hlen]
      simp only [hsize, hdrop, hused]
      rw [ih fuel (comprused + c.compressed.length) (acc ++ [c.compressed.length]) rest
        (by omega) hlast2 (by simp at hfuel; omega)]
      simp

theorem inflatedBytes_cons (inflate : List Byte → Except ZlibError (List Byte)) (c : Chunk)
    (cs : List Chunk) (unpackData : List Byte) (h : inflate c.compressed = .ok unpackData) :
    inflatedBytes inflate (c :: cs) = unpackData ++ inflatedBytes inflate cs := by
  simp [inflatedBytes, List.flatMap_cons, h]

/-- On the chunks of a valid container, all of which inflate, the inflate loop runs to
its end, writes what the chunks inflate to and lowers `size` by that many bytes. -/
theorem inflateChunks_valid (inflate : List Byte → Except ZlibError (List Byte)) :
    ∀ (chunks : List Chunk) (rest slack : List Byte) (size : Int) (written : List Byte)
      (inflated : Nat),
      (∀ c ∈ chunks, ∃ unpackData, inflate c.compressed = .ok unpackData) →
      -9223372036854775808 ≤ size - ((inflatedBytes inflate chunks).length : Int) →
      size < 9223372036854775808 →
      inflateChunks inflate (chunks.map (fun c => c.compressed.length))
          (chunks.flatMap (fun c => c.compressed) ++ rest) slack size written inflated =
        .completed (size - ((inflatedBytes inflate chunks).length : Int))
          (written ++ inflatedBytes inflate chunks) (inflated + chunks.length) := by
  intro chunks
  induction chunks with
  | nil =>
    intro rest slack size written inflated _ _ _
    simp [inflateChunks, inflatedBytes]
  | cons c cs ih =>
    intro rest slack size written inflated hinfl hlo hhi
    obtain ⟨unpackData, hc⟩ := hinfl c (List.mem_cons_self _ _)
    have hcons := inflatedBytes_cons inflate c cs unpackData hc
    rw [hcons, List.length_append] at hlo
    have hdata : (c :: cs).flatMap (fun c => c.compressed) ++ rest =
        c.compressed ++ (cs.flatMap (fun c => c.compressed) ++ rest) := by
      simp [List.flatMap_cons]
    have htake : ((c.compressed ++ (cs.flatMap (fun c => c.compressed) ++ rest)) ++ slack).take
        c.compressed.length = c.compressed := by
      rw [List.append_assoc]
      exact List.take_left' rfl
    have hdrop : (c.compressed ++ (cs.flatMap (fun c => c.compressed) ++ rest)).drop
        c.compressed.length = cs.flatMap (fun c => c.compressed) ++ rest :=
      List.drop_left' rfl
    have hwrap : wrapInt64 (size - (unpackData.length : Int)) = size - (unpackData.length : Int) := by
      apply wrapInt64_of_range
      · push_cast at hlo; omega
      · omega
    rw [hdata, List.map_cons, inflateChunks, if_neg (by simp; omega), htake, hc]
    simp only
    rw [if_neg (by simp), hdrop, hwrap,
      ih rest slack _ _ _ (fun d hd => hinfl d (List.mem_cons_of_mem _ hd))
        (by push_cast at hlo ⊢; omega) (by omega), hcons]
    simp only [List.append_assoc, List.length_append, List.length_cons, Nat.cast_add]
    congr 1
    · omega
    · omega

theorem flatMap_chunkHeader_length (chunks : List Chunk) :
    (chunks.flatMap chunkHeader).length = 16 * chunks.length := by
  induction chunks with
  | nil => rfl
  | cons c cs ih =>
    rw [List.flatMap_cons, List.length_append, ih, chunkHeader_length, List.length_cons]
    omega

/-- The chunk-table loop never exhausts a bound above a sixteenth of the data length. -/
theorem readChunkTable_isSome (total : Nat) :
    ∀ (fuel comprused : Nat) (data : List Byte) (acc : List Nat),
      data.length < 16 * fuel →
      ∃ r, readChunkTable total fuel comprused data acc = some r := by
  intro fuel
  induction fuel with
  | zero => intro _ data _ h; omega
  | succ fuel ih =>
    intro comprused data acc h
    rw [readChunkTable]
    by_cases hlt : comprused < total
    · rw [if_pos hlt]
      by_cases hlen : data.length < 16
      · rw [if_pos hlen]; exact ⟨_, rfl⟩
      · rw [if_neg hlen]
        apply ih
        rw [List.length_drop]
        omega
    · rw [if_neg hlt]; exact ⟨_, rfl⟩

/-- The model of `unpackFile` always produces a run: the iteration bound of the
chunk-table loop is never exhausted. -/
theorem unpackFile_total (inflate : List Byte → Except ZlibError (List Byte))
    (data slack : List Byte) (size : Int) :
    ∃ run, unpackFile inflate data slack size = some run := by
  unfold unpackFile
  split
  · exact ⟨_, rfl⟩
  · simp only
    split
    · exact ⟨_, rfl⟩
    · obtain ⟨r, hr⟩ := readChunkTable_isSome (u32At (data.take 32) 16)
        ((data.drop 32).length + 1) 0 (data.drop 32) [] (by omega)
      rw [hr]
      cases r with
      | outOfRange d => exact ⟨_, rfl⟩
      | table chunks rest =>
        simp only
        split
        · exact ⟨_, rfl⟩
        · split <;> exact ⟨_, rfl⟩

theorem container_split (h : HeaderFields) (chunks : List Chunk) (rest : List Byte) :
    ∃ f1 f2 : List Byte, f1.length = 8 ∧ f2.length = 12 ∧
      container h chunks ++ rest =
        (magic ++ f1 ++ le32 (comprTotal chunks) ++ f2) ++
          (chunks.flatMap chunkHeader ++ (chunks.flatMap (fun c => c.compressed) ++ rest)) := by
  refine ⟨le32 h.chunkSizeLo ++ le32 h.chunkSizeHi,
    le32 h.comprotoHi ++ le32 h.uncomtotLo ++ le32 h.uncomtotHi, rfl, rfl, ?_⟩
  simp only [container, List.append_assoc]

/-- The run of `unpackFile` on a container with a valid header and chunk table whose
chunks all inflate. -/
theorem unpackFile_container (inflate : List Byte → Except ZlibError (List Byte))
    (h : HeaderFields) (chunks : List Chunk) (rest slack : List Byte) (size : Int)
    (hvalid : validTable chunks)
    (hinfl : ∀ c ∈ chunks, ∃ unpackData, inflate c.compressed = .ok unpackData)
    (hlo : -9223372036854775808 ≤ size - ((inflatedBytes inflate chunks).length : Int))
    (hhi : size < 9223372036854775808) :
    unpackFile inflate (container h chunks ++ rest) slack size =
      some ⟨if size - ((inflatedBytes inflate chunks).length : Int) ≠ 0
          then .failed (.sizeInvalid (size - ((inflatedBytes inflate chunks).length : Int)))
          else .done,
        inflatedBytes inflate chunks, chunks.length, chunks.length⟩ := by
  obtain ⟨f1, f2, hf1, hf2, hsplit⟩ := container_split h chunks rest
  obtain ⟨htot, hlast⟩ := hvalid
  rw [hsplit]
  generalize hpay : chunks.flatMap chunkHeader ++
    (chunks.flatMap (fun c => c.compressed) ++ rest) = payload
  have hhdrlen : (magic ++ f1 ++ le32 (comprTotal chunks) ++ f2).length = 32 := by
    simp [hf1, hf2, magic, le32_length]
  have htake : ((magic ++ f1 ++ le32 (comprTotal chunks) ++ f2) ++ payload).take 32 =
      magic ++ f1 ++ le32 (comprTotal chunks) ++ f2 := List.take_left' hhdrlen
  have hdrop : ((magic ++ f1 ++ le32 (comprTotal chunks) ++ f2) ++ payload).drop 32 = payload :=
    List.drop_left' hhdrlen
  have hmagic : (magic ++ f1 ++ le32 (comprTotal chunks) ++ f2).take 8 = magic := by
    rw [List.append_assoc, List.append_assoc]
    exact List.take_left' rfl
  have hcompr : u32At (magic ++ f1 ++ le32 (comprTotal chunks) ++ f2) 16 = comprTotal chunks := by
    match f1, hf1 with
    | [a0, a1, a2, a3, a4, a5, a6, a7], _ =>
      have h0 := u32At_le32_append (comprTotal chunks) f2
      rw [Nat.mod_eq_of_lt htot] at h0
      have h1 : u32At (magic ++ [a0, a1, a2, a3, a4, a5, a6, a7] ++ le32 (comprTotal chunks) ++ f2)
          16 = u32At (le32 (comprTotal chunks) ++ f2) 0 := by
        simp [u32At, magic, le32]
      exact h1.trans h0
  have hlen : ¬ ((magic ++ f1 ++ le32 (comprTotal chunks) ++ f2) ++ payload).length < 32 := by
    rw [List.length_append, hhdrlen]; omega
  have htable := readChunkTable_valid (comprTotal chunks) htot chunks (payload.length + 1) 0 []
    (chunks.flatMap (fun c => c.compressed) ++ rest) (by simp) hlast
    (by
      rw [← hpay, List.length_append, flatMap_chunkHeader_length]
      omega)
  rw [hpay] at htable
  have hloop := inflateChunks_valid inflate chunks rest slack size [] 0 hinfl hlo hhi
  unfold unpackFile
  rw [if_neg hlen]
  simp only [htake, hdrop, hmagic, hcompr, ne_eq, not_true_eq_false, if_false, htable,
    List.nil_append, hloop, List.length_map, Nat.zero_add]
  split <;> simp_all

/-- The remaining `size` after the inflate loop differs from the initial one by the
number of bytes written, up to a multiple of `2^64`. -/
theorem inflateChunks_completed (inflate : List Byte → Except ZlibError (List Byte)) :
    ∀ (chunks : List Nat) (data slack : List Byte) (size : Int) (written : List Byte)
      (inflated : Nat) (size1 : Int) (written1 : List Byte) (inflated1 : Nat),
      inflateChunks inflate chunks data slack size written inflated =
        .completed size1 written1 inflated1 →
      (size - size1 - ((written1.length : Int) - (written.length : Int)))
          % 18446744073709551616 = 0 ∧ written.length ≤ written1.length := by
  intro chunks
  induction chunks with
  | nil =>
    intro data slack size written inflated size1 written1 inflated1 h
    simp only [inflateChunks, InflateResult.completed.injEq] at h
    obtain ⟨h1, h2, _⟩ := h
    subst h1 h2
    simp
  | cons chunk chunks ih =>
    intro data slack size written inflated size1 written1 inflated1 h
    rw [inflateChunks] at h
    split at h
    · cases h
    · split at h
      · cases h
      · cases h
      · rename_i unpackData _
        simp only at h
        split at h
        · cases h
        · obtain ⟨h1, h2⟩ := ih _ _ _ _ _ _ _ _ h
          rw [List.length_append] at h1 h2
          refine ⟨?_, by omega⟩
          have hw : (wrapInt64 (size - (unpackData.length : Int)) -
              (size - (unpackData.length : Int))) % 18446744073709551616 = 0 := by
            unfold wrapInt64; omega
          push_cast at h1
          omega

/-- The inflate loop is never left early with the outcome `done`. -/
theorem inflateChunks_aborted (inflate : List Byte → Except ZlibError (List Byte)) :
    ∀ (chunks : List Nat) (data slack : List Byte) (size : Int) (written : List Byte)
      (inflated : Nat) (how : Outcome) (written1 : List Byte) (inflated1 : Nat),
      inflateChunks inflate chunks data slack size written inflated =
        .aborted how written1 inflated1 →
      how ≠ .done := by
  intro chunks
  induction chunks with
  | nil =>
    intro data slack size written inflated how written1 inflated1 h
    simp [inflateChunks] at h
  | cons chunk chunks ih =>
    intro data slack size written inflated how written1 inflated1 h
    rw [inflateChunks] at h
    split at h
    · cases h; simp
    · split at h
      · cases h; simp
      · cases h; simp
      · simp only at h
        split at h
        · cases h; simp
        · exact ih _ _ _ _ _ _ _ _ h

/-! ### The claims on the container decoder -/

/-- C3 as stated fails: the container has a valid header and chunk table, its first
chunk inflates to the three bytes `abc` and its second chunk is rejected by zlib;
with `D = 3` the difference between `D` and the number of bytes inflated is 0 and the
decode fails, with the error of `zlib.NewReader`. -/
theorem C3_failed_chunk_counterexample :
    validTable [abcChunk, garbageChunk] ∧
      failedChunkContainer = container ⟨0, 0, 0, 3, 0⟩ [abcChunk, garbageChunk] ∧
      (3 : Int) - ((inflatedBytes inflateStored [abcChunk, garbageChunk]).length : Int) = 0 ∧
      unpackFile inflateStored failedChunkContainer [] 3 =
        some ⟨.failed .zlibNewReader, [97, 98, 99], 2, 2⟩ :=
  ⟨⟨by decide, by intro c hc; cases hc; decide⟩, rfl, by decide, by decide⟩

/-- C3 (amended): for every container with a valid header and chunk table whose chunks
all inflate without error, and every declared uncompressed size `D` (with `D` and `D`
minus the inflated total in the range of `int`), the decode of `unpackFile` fails if
and only if `D` minus the total number of bytes inflated from all chunks is non-zero,
and the error then reports that difference as the delta. -/
theorem C3_size_integrity (inflate : List Byte → Except ZlibError (List Byte))
    (h : HeaderFields) (chunks : List Chunk) (rest slack : List Byte) (D : Int)
    (hvalid : validTable chunks)
    (hinfl : ∀ c ∈ chunks, ∃ unpackData, inflate c.compressed = .ok unpackData)
    (hlo : -9223372036854775808 ≤ D - ((inflatedBytes inflate chunks).length : Int))
    (hhi : D < 9223372036854775808) :
    ∃ run, unpackFile inflate (container h chunks ++ rest) slack D = some run ∧
      (run.outcome ≠ .done ↔ D - ((inflatedBytes inflate chunks).length : Int) ≠ 0) ∧
      (D - ((inflatedBytes inflate chunks).length : Int) ≠ 0 →
        run.outcome =
          .failed (.sizeInvalid (D - ((inflatedBytes inflate chunks).length : Int)))) ∧
      run.written = inflatedBytes inflate chunks := by
  refine ⟨_, unpackFile_container inflate h chunks rest slack D hvalid hinfl hlo hhi, ?_, ?_, rfl⟩
  · by_cases hd : D - ((inflatedBytes inflate chunks).length : Int) = 0
    · simp [hd]
    · simp [hd]
  · intro hd
    simp [hd]

set_option maxRecDepth 20000 in
/-- Witness for C3 (amended), the scenario of the claim: with `D = 100` and a single chunk
inflating to 90 bytes the decode fails reporting a delta of 10. -/
theorem C3_size_integrity_witness :
    ∃ run, unpackFile inflateStored (ninetyContainer ++ []) [] 100 = some run ∧
      (inflatedBytes inflateStored [ninetyChunk]).length = 90 ∧
      run.outcome = .failed (.sizeInvalid 10) := by
  have hb : inflatedBytes inflateStored [ninetyChunk] = List.replicate 90 0 := by decide
  obtain ⟨run, hrun, _, hfail, _⟩ := C3_size_integrity inflateStored ⟨0, 0, 0, 100, 0⟩
    [ninetyChunk] [] [] 100
    ⟨by decide, by intro c hc; cases hc; decide⟩
    (by
      intro c hc
      rw [List.mem_singleton] at hc
      subst hc
      exact ⟨List.replicate 90 0, by decide⟩)
    (by rw [hb]; decide) (by decide)
  refine ⟨run, hrun, by rw [hb]; rfl, ?_⟩
  rw [hb] at hfail
  exact hfail (by decide)

/-- C5: for every container input carrying a full 32-byte header whose first 8 bytes
differ from `C1 83 2A 9E 00 00 00 00`, the decode returns the "bad file magic" error
with no chunk descriptor read, no chunk inflated and nothing written to the output. -/
theorem C5_bad_magic (inflate : List Byte → Except ZlibError (List Byte))
    (data slack : List Byte) (size : Int) (hlen : 32 ≤ data.length)
    (hmagic : data.take 8 ≠ magic) :
    unpackFile inflate data slack size = some ⟨.failed .badMagic, [], 0, 0⟩ := by
  have h8 : (data.take 32).take 8 = data.take 8 := by
    rw [List.take_take]; rfl
  unfold unpackFile
  rw [if_neg (by omega)]
  simp only [h8]
  rw [if_pos hmagic]

/-- Witness for C5: the container holding `abc` with the first magic byte altered
from `C1` to `C0`. -/
theorem C5_bad_magic_witness :
    32 ≤ ((0xC0 : Byte) :: abcContainer.drop 1).length ∧
      unpackFile inflateStored ((0xC0 : Byte) :: abcContainer.drop 1) [] 3 =
        some ⟨.failed .badMagic, [], 0, 0⟩ :=
  ⟨by decide, C5_bad_magic inflateStored _ [] 3 (by decide) (by decide)⟩

/-- C10 as stated fails: the descriptor of the single chunk declares an uncompressed
size of 5, the declared total is 3 (in the header and as `size`), and the decode
succeeds, writing the 3 bytes the chunk inflates to. -/
theorem C10_declared_sizes_counterexample :
    declaredTotal [abcChunk] ≠ 3 ∧
      unpackFile inflateStored abcContainer [] 3 = some ⟨.done, [97, 98, 99], 1, 1⟩ :=
  ⟨by decide, by decide⟩

/-- C10 (amended): whenever the decode succeeds, the number of bytes produced equals
the declared total `D` exactly (for `D` in the range of `int` and fewer than `2^63`
bytes produced); the uncompressed sizes declared in the chunk descriptors are not
examined. -/
theorem C10_success_length (inflate : List Byte → Except ZlibError (List Byte))
    (data slack : List Byte) (D : Int) (run : UnpackRun)
    (hlo : -9223372036854775808 ≤ D) (hhi : D < 9223372036854775808)
    (hrun : unpackFile inflate data slack D = some run) (hdone : run.outcome = .done)
    (hsz : (run.written.length : Int) < 9223372036854775808) :
    (run.written.length : Int) = D := by
  unfold unpackFile at hrun
  split at hrun
  · cases hrun; cases hdone
  · simp only at hrun
    split at hrun
    · cases hrun; cases hdone
    · split at hrun
      · cases hrun
      · cases hrun; cases hdone
      · split at hrun
        · rename_i how written inflated hloop
          cases hrun
          exact absurd hdone (inflateChunks_aborted inflate _ _ _ _ _ _ _ _ _ hloop)
        · rename_i size1 written inflated hloop
          obtain ⟨hmod, _⟩ := inflateChunks_completed inflate _ _ _ _ _ _ _ _ _ hloop
          split at hrun
          · cases hrun; cases hdone
          · rename_i hzero
            cases hrun
            have hz : size1 = 0 := not_not.mp hzero
            subst hz
            simp only [List.length_nil, Nat.cast_zero, sub_zero] at hmod
            simp only at hsz ⊢
            omega

/-- Witness for C10 (amended) at the container holding `abc` with `D = 3`. -/
theorem C10_success_length_witness :
    unpackFile inflateStored abcContainer [] 3 = some ⟨.done, [97, 98, 99], 1, 1⟩ ∧
      ((([97, 98, 99] : List Byte).length : Nat) : Int) = 3 :=
  ⟨by decide, C10_success_length inflateStored abcContainer [] 3 ⟨.done, [97, 98, 99], 1, 1⟩
    (by decide) (by decide) (by decide) rfl (by decide)⟩

/-! ### Descriptor lemmas -/

/-- Decoding a stored string, whatever follows it: its value, and its length as the
number of bytes consumed. -/
theorem readUe4String_field_append (f : Field) (rest : List Byte) (h : f.fits) :
    readUe4String (f.bytes ++ rest) = .ok (f.value, f.bytes.length) := by
  cases f with
  | zero => rfl
  | text s =>
    simp only [Field.bytes, Field.value, writeUe4String_length]
    exact readUe4String_writeUe4String_append s rest h

/-- The scene-name loop on stored scene names collects their values in order. -/
theorem readMapNames_encoded :
    ∀ (scenes : List Field) (rest : List Byte) (acc : List (List Byte)),
      (∀ f ∈ scenes, f.fits) →
      readMapNames scenes.length (scenes.flatMap Field.bytes ++ rest) acc =
        .ok (acc ++ scenes.map Field.value) := by
  intro scenes
  induction scenes with
  | nil => intro rest acc _; simp [readMapNames]
  | cons f fs ih =>
    intro rest acc h
    have hf := h f (List.mem_cons_self _ _)
    rw [List.length_cons, readMapNames, List.flatMap_cons, List.append_assoc,
      readUe4String_field_append f _ hf]
    simp only
    rw [if_neg (by rw [List.length_append]; omega), List.drop_left,
      ih rest _ (fun t ht => h t (List.mem_cons_of_mem _ ht))]
    simp

/-- The key/value loop on stored pairs collects their values in order and raises the
flag when a key is `ModType`. -/
theorem readMeta_encoded :
    ∀ (pairs : List (Field × Field)) (rest : List Byte)
      (acc : List (List Byte × List Byte)) (flag : Bool),
      (∀ p ∈ pairs, p.1.fits ∧ p.2.fits) →
      readMeta pairs.length
          (pairs.flatMap (fun pair => pair.1.bytes ++ pair.2.bytes) ++ rest) acc flag =
        .ok (acc ++ pairs.map (fun pair => (pair.1.value, pair.2.value)),
          flag || decide (utf8 "ModType" ∈ pairs.map (fun pair => pair.1.value))) := by
  intro pairs
  induction pairs with
  | nil => intro rest acc flag _; simp [readMeta]
  | cons p ps ih =>
    intro rest acc flag h
    obtain ⟨hk, hv⟩ := h p (List.mem_cons_self _ _)
    rw [List.length_cons, readMeta, List.flatMap_cons, List.append_assoc, List.append_assoc,
      readUe4String_field_append p.1 _ hk]
    simp only
    rw [if_neg (by rw [List.length_append]; omega), List.drop_left,
      readUe4String_field_append p.2 _ hv]
    simp only
    rw [if_neg (by rw [List.length_append]; omega), List.drop_left,
      ih rest _ _ (fun t ht => h t (List.mem_cons_of_mem _ ht))]
    obtain ⟨k, v⟩ := p
    by_cases hkey : k.value = utf8 "ModType"
    · simp [hkey]
    · have hkey2 : (utf8 "ModType" == k.value) = false := by
        rw [beq_eq_false_iff_ne]; exact fun e => hkey e.symm
      simp [hkey, hkey2]

/-! ### The claim on the descriptor encoder -/

/-- C4: for every well-formed `mod.info` (name string, count `M`, `M` scene names) and
`modmeta.info` (count `K`, `K` key/value string pairs), each possibly followed by
further bytes, every title and every identifier, the bytes `createDotMod` writes to
the `.mod` file are `LE32(id) ++ LE32(0) ++ enc(title) ++ enc(path ++ decimal(id)) ++
LE32(M) ++ enc(scene_1..scene_M) ++ LE32(4280483635) ++ LE32(2) ++ [flag] ++ LE32(K) ++
enc(k_1) ++ enc(v_1) .. enc(k_K) ++ enc(v_K)`, where `enc` is `writeUe4String` and
`flag` is 1 exactly when some key equals `ModType`. -/
theorem C4_descriptor_layout (name : Field) (scenes : List Field)
    (pairs : List (Field × Field)) (extra1 extra2 modTitle : List Byte) (modId : Int)
    (hname : name.fits)
    (hM : scenes.length < 2 ^ 32) (hscenes : ∀ f ∈ scenes, f.fits)
    (hK : pairs.length < 2 ^ 32) (hpairs : ∀ p ∈ pairs, p.1.fits ∧ p.2.fits) :
    createDotMod (modInfoBytes name scenes ++ extra1) (modmetaInfoBytes pairs ++ extra2)
        modId modTitle =
      .ok (le32 (uint32OfInt modId) ++ le32 0
        ++ writeUe4String modTitle
        ++ writeUe4String (utf8 "../../../ShooterGame/Content/Mods/" ++ decimal modId)
        ++ le32 scenes.length
        ++ (scenes.map Field.value).flatMap writeUe4String
        ++ le32 4280483635 ++ le32 2
        ++ [if utf8 "ModType" ∈ pairs.map (fun pair => pair.1.value) then 1 else 0]
        ++ le32 pairs.length
        ++ (pairs.map (fun pair => (pair.1.value, pair.2.value))).flatMap
            (fun pair => writeUe4String pair.1 ++ writeUe4String pair.2)) := by
  have hM1 : u32At (le32 scenes.length ++ (scenes.flatMap Field.bytes ++ extra1)) 0 =
      scenes.length := by
    rw [u32At_le32_append]; exact Nat.mod_eq_of_lt hM
  have hK1 : u32At (le32 pairs.length ++
      (pairs.flatMap (fun pair => pair.1.bytes ++ pair.2.bytes) ++ extra2)) 0 =
      pairs.length := by
    rw [u32At_le32_append]; exact Nat.mod_eq_of_lt hK
  have hd4 : ∀ (n : Nat) (l : List Byte), (le32 n ++ l).drop 4 = l :=
    fun n l => List.drop_left' (le32_length n)
  unfold createDotMod modInfoBytes modmetaInfoBytes
  simp only [List.append_assoc]
  rw [readUe4String_field_append name _ hname]
  simp only
  rw [if_neg (by rw [List.length_append]; omega), List.drop_left,
    if_neg (by simp [le32_length]), hM1, hd4, readMapNames_encoded scenes extra1 [] hscenes]
  simp only
  rw [if_neg (by simp [le32_length]), hK1, hd4, readMeta_encoded pairs extra2 [] false hpairs]
  simp only [List.nil_append, Bool.false_or, List.append_assoc]
  by_cases hmem : utf8 "ModType" ∈ pairs.map (fun pair => pair.1.value)
  · simp [hmem]
  · simp [hmem]

/-- Witness for C4: a `mod.info` with an empty name and one scene name and a
`modmeta.info` with the single pair `ModType = 1`, for the item 1999447172 titled
`T`. -/
theorem C4_descriptor_layout_witness :
    createDotMod (modInfoBytes .zero [.text (utf8 "TheIsland")] ++ [])
        (modmetaInfoBytes [(.text (utf8 "ModType"), .text (utf8 "1"))] ++ [])
        1999447172 (utf8 "T") =
      .ok (le32 1999447172 ++ le32 0
        ++ writeUe4String (utf8 "T")
        ++ writeUe4String (utf8 "../../../ShooterGame/Content/Mods/1999447172")
        ++ le32 1
        ++ writeUe4String (utf8 "TheIsland")
        ++ le32 4280483635 ++ le32 2
        ++ [1]
        ++ le32 1
        ++ (writeUe4String (utf8 "ModType") ++ writeUe4String (utf8 "1"))) :=
  C4_descriptor_layout .zero [.text (utf8 "TheIsland")]
    [(.text (utf8 "ModType"), .text (utf8 "1"))] [] [] (utf8 "T") 1999447172
    (by decide) (by decide) (by decide) (by decide) (by decide)

/-! ### Manifest lemmas -/

theorem split_ne_nil (s : Str) (sep : Char) : split s sep ≠ [] := by
  induction s with
  | nil => simp [split]
  | cons c cs ih =>
    rw [split]
    split
    · simp
    · split <;> simp

/-- Splitting around a separator splits both sides. -/
theorem split_append_sep (a b : Str) (sep : Char) :
    split (a ++ sep :: b) sep = split a sep ++ split b sep := by
  induction a with
  | nil => simp [split]
  | cons c cs ih =>
    rw [List.cons_append, split, split, ih]
    by_cases hc : c = sep
    · simp [hc]
    · simp only [hc, if_false]
      cases hs : split cs sep with
      | nil => exact absurd hs (split_ne_nil cs sep)
      | cons h t => simp

theorem scan_open (line : Str) (lines : List Str) (depth : Nat) (ho : isOpen line = true) :
    scan (line :: lines) depth = 1 + scan lines (depth + 1) := by
  simp only [scan, ho, if_true]

theorem scan_close_zero (line : Str) (lines : List Str) (ho : ¬ isOpen line = true)
    (hc : isClose line = true) : scan (line :: lines) 0 = 1 := by
  simp [scan, ho, hc]

theorem scan_close_succ (line : Str) (lines : List Str) (depth : Nat)
    (ho : ¬ isOpen line = true) (hc : isClose line = true) :
    scan (line :: lines) (depth + 1) = 1 + scan lines depth := by
  simp [scan, ho, hc]

theorem scan_other (line : Str) (lines : List Str) (depth : Nat)
    (ho : ¬ isOpen line = true) (hc : ¬ isClose line = true) :
    scan (line :: lines) depth = 1 + scan lines depth := by
  simp [scan, ho, hc]

theorem scan_le (lines : List Str) : ∀ depth, scan lines depth ≤ lines.length := by
  induction lines with
  | nil => intro depth; simp [scan]
  | cons line lines ih =>
    intro depth
    by_cases ho : isOpen line = true
    · rw [scan_open line lines depth ho]
      have := ih (depth + 1); simp only [List.length_cons]; omega
    · by_cases hc : isClose line = true
      · cases depth with
        | zero => rw [scan_close_zero line lines ho hc]; simp
        | succ d =>
          rw [scan_close_succ line lines d ho hc]
          have := ih d; simp only [List.length_cons]; omega
      · rw [scan_other line lines depth ho hc]
        have := ih depth; simp only [List.length_cons]; omega

/-- A scope entered `a + b + 1` levels up ends where the scope `b` levels up ends,
counted from the end of the scope `a` levels up. -/
theorem scan_add (lines : List Str) :
    ∀ a b, scan lines (a + b + 1) = scan lines a + scan (lines.drop (scan lines a)) b := by
  induction lines with
  | nil => intro a b; simp [scan]
  | cons line lines ih =>
    intro a b
    by_cases ho : isOpen line = true
    · rw [scan_open line lines _ ho, scan_open line lines _ ho,
        show a + b + 1 + 1 = (a + 1) + b + 1 by omega, ih (a + 1) b,
        Nat.add_comm 1 (scan lines (a + 1)), List.drop_succ_cons]
      omega
    · by_cases hc : isClose line = true
      · cases a with
        | zero =>
          rw [scan_close_succ line lines _ ho hc, scan_close_zero line lines ho hc,
            List.drop_succ_cons, List.drop_zero, Nat.zero_add]
        | succ a =>
          rw [scan_close_succ line lines _ ho hc, scan_close_succ line lines _ ho hc,
            show a + 1 + b = a + b + 1 by omega, ih a b,
            Nat.add_comm 1 (scan lines a), List.drop_succ_cons]
          omega
      · rw [scan_other line lines _ ho hc, scan_other line lines _ ho hc, ih a b,
          Nat.add_comm 1 (scan lines a), List.drop_succ_cons]
        omega

theorem collect_nil_stack (lines : List Str) : collect lines [] = [] := by
  cases lines <;> rfl

theorem collect_open (line : Str) (lines : List Str) (pfx prev : Str)
    (stack : List (Str × Str)) (ho : isOpen line = true) :
    collect (line :: lines) ((pfx, prev) :: stack) =
      collect lines ((dotJoin pfx prev, []) :: (pfx, prev) :: stack) := by
  simp only [collect, ho, if_true]

theorem collect_close (line : Str) (lines : List Str) (pfx prev : Str)
    (stack : List (Str × Str)) (ho : ¬ isOpen line = true) (hc : isClose line = true) :
    collect (line :: lines) ((pfx, prev) :: stack) = collect lines stack := by
  simp [collect, ho, hc]

theorem collect_key (line : Str) (lines : List Str) (pfx prev : Str)
    (stack : List (Str × Str)) (ho : ¬ isOpen line = true) (hc : ¬ isClose line = true)
    (hv : (splitLine line).2 = []) :
    collect (line :: lines) ((pfx, prev) :: stack) =
      collect lines ((pfx, (splitLine line).1) :: stack) := by
  simp [collect, ho, hc, hv]

theorem collect_pair (line : Str) (lines : List Str) (pfx prev : Str)
    (stack : List (Str × Str)) (ho : ¬ isOpen line = true) (hc : ¬ isClose line = true)
    (hv : ¬ (splitLine line).2 = []) :
    collect (line :: lines) ((pfx, prev) :: stack) =
      (dotJoin pfx (splitLine line).1, (splitLine line).2) ::
        collect lines ((pfx, prev) :: stack) := by
  simp [collect, ho, hc, hv]

/-- The pairs read under a stack of scopes are those of the innermost scope followed
by those read under the remaining scopes from where the innermost one ends. -/
theorem collect_split :
    ∀ (n : Nat) (lines : List Str), lines.length ≤ n →
      ∀ (f : Str × Str) (stack : List (Str × Str)),
        collect lines (f :: stack) =
          collect lines [f] ++ collect (lines.drop (scan lines 0)) stack := by
  intro n
  induction n with
  | zero =>
    intro lines hn f stack
    have : lines = [] := List.length_eq_zero.mp (by omega)
    subst this
    simp [collect]
  | succ n ih =>
    intro lines hn f stack
    cases lines with
    | nil => simp [collect]
    | cons line lines =>
      obtain ⟨pfx, prev⟩ := f
      have hlen : lines.length ≤ n := by simp only [List.length_cons] at hn; omega
      by_cases ho : isOpen line = true
      · have hdl : (lines.drop (scan lines 0)).length ≤ n := by
          rw [List.length_drop]; omega
        have hs1 : scan lines (0 + 0 + 1) =
            scan lines 0 + scan (lines.drop (scan lines 0)) 0 := scan_add lines 0 0
        rw [collect_open _ _ _ _ _ ho, collect_open _ _ _ _ _ ho, scan_open _ _ _ ho, hs1,
          ih lines hlen _ ((pfx, prev) :: stack), ih lines hlen _ [(pfx, prev)],
          ih _ hdl (pfx, prev) stack, List.append_assoc, List.drop_drop,
          show 1 + (scan lines 0 + scan (lines.drop (scan lines 0)) 0) =
            (scan lines 0 + scan (lines.drop (scan lines 0)) 0) + 1 by omega,
          List.drop_succ_cons]
      · by_cases hc : isClose line = true
        · rw [collect_close _ _ _ _ _ ho hc, collect_close _ _ _ _ _ ho hc,
            scan_close_zero _ _ ho hc, collect_nil_stack]
          simp
        · by_cases hv : (splitLine line).2 = []
          · rw [collect_key _ _ _ _ _ ho hc hv, collect_key _ _ _ _ _ ho hc hv,
              scan_other _ _ _ ho hc, ih lines hlen _ stack, Nat.add_comm 1,
              List.drop_succ_cons]
          · rw [collect_pair _ _ _ _ _ ho hc hv, collect_pair _ _ _ _ _ ho hc hv,
              scan_other _ _ _ ho hc, ih lines hlen _ stack, Nat.add_comm 1,
              List.drop_succ_cons]
            simp

theorem isOpen_iff (line : Str) : isOpen line = true ↔ (splitLine line).1 = lbrace := by
  simp [isOpen]

theorem isClose_iff (line : Str) : isClose line = true ↔ (splitLine line).1 = rbrace := by
  simp [isClose]

theorem some_pair_congr {α β : Type} {a c : α} {b d : β} (h1 : a = c) (h2 : b = d) :
    some (a, b) = some (c, d) := by
  subst h1 h2; rfl

theorem readAcfLoop_succ (fuel : Nat) (lines : List Str) (pfx : Str) (i : Nat) (prev : Str)
    (pairs : List (Str × Str)) :
    readAcfLoop (fuel + 1) lines pfx i prev pairs =
      if i < lines.length then
        if (splitLine (lines.getD i [])).1 = lbrace then
          match readAcfLoop fuel (lines.drop (i + 1)) (dotJoin pfx prev) 0 [] [] with
          | none => none
          | some (nread, sub) => readAcfLoop fuel lines pfx (i + nread + 1) prev (pairs ++ sub)
        else if (splitLine (lines.getD i [])).1 = rbrace then
          some (i + 1, pairs)
        else if (splitLine (lines.getD i [])).2 = [] then
          readAcfLoop fuel lines pfx (i + 1) (splitLine (lines.getD i [])).1 pairs
        else
          readAcfLoop fuel lines pfx (i + 1) prev
            (pairs ++ [(dotJoin pfx (splitLine (lines.getD i [])).1,
              (splitLine (lines.getD i [])).2)])
      else
        some (lines.length, pairs) := rfl

/-- The loop of `readAcf` never exhausts a bound above the number of lines left, and
it returns the end of its scope and the pairs of the flat reading. -/
theorem readAcfLoop_spec :
    ∀ (fuel : Nat) (lines : List Str) (pfx : Str) (i : Nat) (prev : Str)
      (acc : List (Str × Str)),
      i ≤ lines.length → lines.length - i < fuel →
      readAcfLoop fuel lines pfx i prev acc =
        some (i + scan (lines.drop i) 0, acc ++ collect (lines.drop i) [(pfx, prev)]) := by
  intro fuel
  induction fuel with
  | zero => intro lines pfx i prev acc _ h; omega
  | succ fuel ih =>
    intro lines pfx i prev acc hle hfuel
    by_cases hi : i < lines.length
    · have hd : lines.drop i = lines.getD i [] :: lines.drop (i + 1) := by
        rw [List.getD_eq_getElem _ _ hi]
        exact List.drop_eq_getElem_cons hi
      have hrest : (lines.drop (i + 1)).length = lines.length - (i + 1) := List.length_drop _ _
      have hsc := scan_le (lines.drop (i + 1)) 0
      rw [hd, readAcfLoop_succ, if_pos hi]
      generalize lines.getD i [] = line at *
      by_cases ho : (splitLine line).1 = lbrace
      · have ho1 := (isOpen_iff line).mpr ho
        have hnest := ih (lines.drop (i + 1)) (dotJoin pfx prev) 0 [] [] (Nat.zero_le _)
          (by omega)
        have hcont := ih lines pfx (i + scan (lines.drop (i + 1)) 0 + 1) prev
          (acc ++ collect (lines.drop (i + 1)) [(dotJoin pfx prev, [])]) (by omega) (by omega)
        have hs1 : scan (lines.drop (i + 1)) (0 + 0 + 1) =
            scan (lines.drop (i + 1)) 0 +
              scan ((lines.drop (i + 1)).drop (scan (lines.drop (i + 1)) 0)) 0 :=
          scan_add _ 0 0
        have hdd : lines.drop (i + scan (lines.drop (i + 1)) 0 + 1) =
            (lines.drop (i + 1)).drop (scan (lines.drop (i + 1)) 0) := by
          rw [List.drop_drop,
            show i + 1 + scan (lines.drop (i + 1)) 0 = i + scan (lines.drop (i + 1)) 0 + 1
              by omega]
        rw [List.drop_zero, Nat.zero_add, List.nil_append] at hnest
        rw [if_pos ho, hnest]
        simp only
        rw [hcont, scan_open _ _ _ ho1, collect_open _ _ _ _ _ ho1,
          collect_split _ _ (Nat.le_refl _) _ [(pfx, prev)], hs1, hdd, List.append_assoc]
        exact some_pair_congr (by omega) rfl
      · have ho1 : ¬ isOpen line = true := fun h => ho ((isOpen_iff line).mp h)
        rw [if_neg ho]
        by_cases hc : (splitLine line).1 = rbrace
        · have hc1 := (isClose_iff line).mpr hc
          rw [if_pos hc, scan_close_zero _ _ ho1 hc1, collect_close _ _ _ _ _ ho1 hc1,
            collect_nil_stack, List.append_nil]
        · have hc1 : ¬ isClose line = true := fun h => hc ((isClose_iff line).mp h)
          rw [if_neg hc]
          by_cases hv : (splitLine line).2 = []
          · rw [if_pos hv, ih lines pfx (i + 1) _ acc (by omega) (by omega),
              scan_other _ _ _ ho1 hc1, collect_key _ _ _ _ _ ho1 hc1 hv]
            exact some_pair_congr (by omega) rfl
          · rw [if_neg hv, ih lines pfx (i + 1) _ _ (by omega) (by omega),
              scan_other _ _ _ ho1 hc1, collect_pair _ _ _ _ _ ho1 hc1 hv,
              List.append_assoc, List.singleton_append]
            exact some_pair_congr (by omega) rfl
    · have hieq : i = lines.length := by omega
      subst hieq
      rw [readAcfLoop_succ, if_neg hi, List.drop_length]
      simp [scan, collect]

/-- The function `readAcf` is total: it returns the end of the scope it reads and the
pairs of the flat reading. -/
theorem readAcf_eq (lines : List Str) (pfx : Str) :
    readAcf lines pfx = some (scan lines 0, collect lines [(pfx, [])]) := by
  have h := readAcfLoop_spec (lines.length + 1) lines pfx 0 [] [] (Nat.zero_le _) (by omega)
  simpa [readAcf] using h

theorem ReadAcf_eq (input : Str) :
    ReadAcf input = some (collect (split input (Char.ofNat 0x0A)) [([], [])]) := by
  simp [ReadAcf, readAcf_eq]

theorem isOpen_rbrace : ¬ isOpen rbrace = true := by decide

theorem isClose_rbrace : isClose rbrace = true := by decide

/-- Lines consisting of `}` yield no pair. -/
theorem collect_closers : ∀ (n : Nat) (stack : List (Str × Str)),
    collect (List.replicate n rbrace) stack = [] := by
  intro n
  induction n with
  | zero => intro stack; rfl
  | succ n ih =>
    intro stack
    cases stack with
    | nil => exact collect_nil_stack _
    | cons f stack =>
      obtain ⟨pfx, prev⟩ := f
      rw [List.replicate_succ, collect_close _ _ _ _ _ isOpen_rbrace isClose_rbrace]
      exact ih stack

/-- Lines consisting of `}` appended to a manifest do not change its pairs. -/
theorem collect_append_closers (n : Nat) : ∀ (lines : List Str) (stack : List (Str × Str)),
    collect (lines ++ List.replicate n rbrace) stack = collect lines stack := by
  intro lines
  induction lines with
  | nil =>
    intro stack
    rw [List.nil_append, collect_closers]
    rfl
  | cons line lines ih =>
    intro stack
    cases stack with
    | nil => rw [collect_nil_stack, collect_nil_stack]
    | cons f stack =>
      obtain ⟨pfx, prev⟩ := f
      rw [List.cons_append]
      by_cases ho : isOpen line = true
      · rw [collect_open _ _ _ _ _ ho, collect_open _ _ _ _ _ ho, ih]
      · by_cases hc : isClose line = true
        · rw [collect_close _ _ _ _ _ ho hc, collect_close _ _ _ _ _ ho hc, ih]
        · by_cases hv : (splitLine line).2 = []
          · rw [collect_key _ _ _ _ _ ho hc hv, collect_key _ _ _ _ _ ho hc hv, ih]
          · rw [collect_pair _ _ _ _ _ ho hc hv, collect_pair _ _ _ _ _ ho hc hv, ih]

theorem appendCloseLines_succ (t : Str) (n : Nat) :
    appendCloseLines t (n + 1) = appendCloseLines t n ++ (Char.ofNat 0x0A :: rbrace) := by
  simp [appendCloseLines, List.replicate_succ', List.flatten_append]

/-- The lines of a text followed by `n` lines `}`. -/
theorem split_appendCloseLines (t : Str) (n : Nat) :
    split (appendCloseLines t n) (Char.ofNat 0x0A) =
      split t (Char.ofNat 0x0A) ++ List.replicate n rbrace := by
  induction n with
  | zero => simp [appendCloseLines]
  | succ n ih =>
    have hr : split rbrace (Char.ofNat 0x0A) = [rbrace] := by decide
    rw [appendCloseLines_succ, split_append_sep, ih, hr, List.append_assoc,
      ← List.replicate_succ']

/-- On well-nested lines the flat reading yields one pair per key/value line. -/
theorem collect_length_of_wellNested :
    ∀ (lines : List Str) (depth : Nat) (afterKey : Bool) (stack : List (Str × Str)),
      wellNested lines depth afterKey = true → stack.length = depth + 1 →
      (collect lines stack).length = lines.countP isPairLine := by
  intro lines
  induction lines with
  | nil => intro depth afterKey stack _ _; rfl
  | cons line lines ih =>
    intro depth afterKey stack hwn hlen
    cases stack with
    | nil => simp at hlen
    | cons f stack =>
      obtain ⟨pfx, prev⟩ := f
      simp only [List.length_cons, Nat.add_right_cancel_iff] at hlen
      by_cases ho : isOpen line = true
      · have hnp : isPairLine line = false := by simp [isPairLine, ho]
        simp only [wellNested, ho, if_true, Bool.and_eq_true] at hwn
        rw [collect_open _ _ _ _ _ ho, List.countP_cons, hnp,
          ih (depth + 1) false _ hwn.2 (by simp [hlen])]
        simp
      · by_cases hc : isClose line = true
        · have hnp : isPairLine line = false := by simp [isPairLine, hc]
          cases depth with
          | zero => simp [wellNested, ho, hc] at hwn
          | succ d =>
            simp only [wellNested, ho, hc, if_true, if_false] at hwn
            rw [collect_close _ _ _ _ _ ho hc, List.countP_cons, hnp, ih d false _ hwn hlen]
            simp
        · simp only [wellNested, ho, hc, if_false] at hwn
          by_cases hv : (splitLine line).2 = []
          · have hnp : isPairLine line = false := by simp [isPairLine, hasValue, hv]
            rw [collect_key _ _ _ _ _ ho hc hv, List.countP_cons, hnp,
              ih depth _ _ hwn (by simp [hlen])]
            simp
          · have hp : isPairLine line = true := by simp [isPairLine, hasValue, ho, hc, hv]
            rw [collect_pair _ _ _ _ _ ho hc hv, List.countP_cons, hp, List.length_cons,
              ih depth _ _ hwn (by simp [hlen])]
            simp

/-! ### The claims on the manifest parser -/

/-- C2 as stated fails: the text `A`, `{<TAB>x`, `}<TAB>y` is a valid nested text with
two lines carrying a non-empty value, and `ReadAcf` returns no pair: a line whose key
is a brace opens or closes a scope whatever its value. -/
theorem C2_pair_count_counterexample :
    validAcf braceValueText = true ∧ ReadAcf braceValueText = some [] ∧
      countValueLines braceValueText = 2 :=
  ⟨by decide, by decide, by decide⟩

/-- C2 (amended): for every valid nested manifest text (every `{` preceded by a
section-key line and closed by a matching `}`), `ReadAcf` returns, and the number of
pairs it returns equals the number of lines with a non-empty value whose key is
neither `{` nor `}`, regardless of nesting depth. -/
theorem C2_pair_count (input : Str) (hvalid : validAcf input = true) :
    ∃ pairs, ReadAcf input = some pairs ∧ pairs.length = countPairLines input :=
  ⟨_, ReadAcf_eq input,
    collect_length_of_wellNested (split input (Char.ofNat 0x0A)) 0 false [([], [])] hvalid rfl⟩

/-- Witness for C2 (amended) at the manifest of the installed depots, nested three
scopes deep, with two key/value lines. -/
theorem C2_pair_count_witness :
    validAcf appStateText = true ∧ countPairLines appStateText = 2 ∧
      ∃ pairs, ReadAcf appStateText = some pairs ∧ pairs.length = countPairLines appStateText :=
  ⟨by decide, by decide, C2_pair_count appStateText (by decide)⟩

/-- C9: `ReadAcf` is total, and for every manifest text `t` and every `n`, `ReadAcf`
of `t` followed by `n` lines each consisting of `}` returns the same pairs as
`ReadAcf t`: a text that ends inside unclosed scopes yields the pairs parsed up to
that point, the same as if the missing `}` lines were present. -/
theorem C9_unterminated_scopes (t : Str) (n : Nat) :
    ∃ pairs, ReadAcf t = some pairs ∧ ReadAcf (appendCloseLines t n) = some pairs := by
  refine ⟨_, ReadAcf_eq t, ?_⟩
  rw [ReadAcf_eq, split_appendCloseLines, collect_append_closers]

/-! ### The compressed total -/

theorem runningSumFrom_cons (comprused c : Nat) (chunks : List Nat) :
    runningSumFrom comprused (c :: chunks) = runningSumFrom (uint32 (comprused + c)) chunks :=
  rfl

/-- What the chunk-table loop has read when it ends normally: the recorded sizes are
the first fields of consecutive descriptors, their running sum has reached the total,
and it had not reached it before the last descriptor. -/
theorem readChunkTable_table (total : Nat) :
    ∀ (fuel comprused : Nat) (data : List Byte) (acc chunks : List Nat) (rest : List Byte),
      readChunkTable total fuel comprused data acc = some (.table chunks rest) →
      ∃ new : List Nat, chunks = acc ++ new ∧ rest = data.drop (16 * new.length) ∧
        total ≤ runningSumFrom comprused new ∧
        (∀ k, k < new.length → runningSumFrom comprused (new.take k) < total) ∧
        (∀ i, i < new.length → new.getD i 0 = u32At (data.drop (16 * i)) 0) := by
  intro fuel
  induction fuel with
  | zero => intro comprused data acc chunks rest h; simp [readChunkTable] at h
  | succ fuel ih =>
    intro comprused data acc chunks rest h
    rw [readChunkTable] at h
    by_cases hlt : comprused < total
    · rw [if_pos hlt] at h
      by_cases hlen : data.length < 16
      · rw [if_pos hlen] at h; cases h
      · rw [if_neg hlen] at h
        obtain ⟨new, h1, h2, h3, h4, h5⟩ := ih _ _ _ _ _ h
        refine ⟨u32At data 0 :: new, ?_, ?_, ?_, ?_, ?_⟩
        · rw [h1]; simp
        · rw [h2, List.drop_drop, List.length_cons]
          congr 1; omega
        · rw [runningSumFrom_cons]; exact h3
        · intro k hk
          cases k with
          | zero => exact hlt
          | succ k =>
            rw [List.take_succ_cons, runningSumFrom_cons]
            exact h4 k (by simp only [List.length_cons] at hk; omega)
        · intro i hi
          cases i with
          | zero => rfl
          | succ i =>
            rw [List.getD_cons_succ, h5 i (by simp only [List.length_cons] at hi; omega),
              List.drop_drop]
            congr 2; omega
    · rw [if_neg hlt] at h
      simp only [Option.some.injEq, TableResult.table.injEq] at h
      obtain ⟨h1, h2⟩ := h
      subst h1 h2
      exact ⟨[], by simp, by simp, by simp [runningSumFrom]; omega, by simp, by simp⟩

/-- C11 as stated fails: the header declares a compressed total of 10, the single
chunk descriptor declares 14 compressed bytes, and the decode succeeds. -/
theorem C11_overshoot_counterexample :
    u32At (overshootContainer.take 32) 16 = 10 ∧
      u32At (overshootContainer.drop 32) 0 = 14 ∧
      unpackFile inflateStored overshootContainer [] 3 = some ⟨.done, [97, 98, 99], 1, 1⟩ :=
  ⟨by decide, by decide, by decide⟩

/-- C11 (amended): on every successful decode, the compressed-size fields of the
chunk descriptors that were read have a running 32-bit sum that is at least the
compressed total declared in the header, and that was below it before the last
descriptor was read. -/
theorem C11_compressed_total (inflate : List Byte → Except ZlibError (List Byte))
    (data slack : List Byte) (D : Int) (run : UnpackRun)
    (hrun : unpackFile inflate data slack D = some run) (hdone : run.outcome = .done) :
    ∃ chunks : List Nat, chunks.length = run.descriptors ∧
      (∀ i, i < chunks.length → chunks.getD i 0 = u32At (data.drop (32 + 16 * i)) 0) ∧
      u32At (data.take 32) 16 ≤ runningSumFrom 0 chunks ∧
      ∀ k, k < chunks.length → runningSumFrom 0 (chunks.take k) < u32At (data.take 32) 16 := by
  unfold unpackFile at hrun
  split at hrun
  · cases hrun; cases hdone
  · simp only at hrun
    split at hrun
    · cases hrun; cases hdone
    · split at hrun
      · cases hrun
      · cases hrun; cases hdone
      · rename_i chunks rest htable
        obtain ⟨new, h1, _, h3, h4, h5⟩ := readChunkTable_table _ _ _ _ _ _ _ htable
        rw [List.nil_append] at h1
        subst h1
        have hdesc : run.descriptors = chunks.length := by
          split at hrun
          · cases hrun; rfl
          · split at hrun <;> cases hrun <;> rfl
        refine ⟨chunks, hdesc.symm, ?_, h3, h4⟩
        intro i hi
        rw [h5 i hi, List.drop_drop]

/-- Witness for C11 (amended) at the container holding `abc`, whose single
descriptor declares exactly the compressed total 14. -/
theorem C11_compressed_total_witness :
    unpackFile inflateStored abcContainer [] 3 = some ⟨.done, [97, 98, 99], 1, 1⟩ ∧
      ∃ chunks : List Nat, chunks.length = 1 ∧
        (∀ i, i < chunks.length → chunks.getD i 0 = u32At (abcContainer.drop (32 + 16 * i)) 0) ∧
        u32At (abcContainer.take 32) 16 ≤ runningSumFrom 0 chunks ∧
        ∀ k, k < chunks.length →
          runningSumFrom 0 (chunks.take k) < u32At (abcContainer.take 32) 16 :=
  ⟨by decide, C11_compressed_total inflateStored abcContainer [] 3 ⟨.done, [97, 98, 99], 1, 1⟩
    (by decide) rfl⟩

/-- C12: a length field that points past the end of the data is not reported as an
error. With the `mod.info` bytes `02 00 00 00 61`, and with a `modmeta.info` whose
only key is truncated in the same way, `createDotMod` ends in an out-of-range slice
expression, whatever the other inputs are. -/
theorem C12_truncated_descriptor_out_of_range (modmetaInfo modTitle : List Byte) (modId : Int) :
    createDotMod truncatedModInfo modmetaInfo modId modTitle = .outOfRange ∧
      createDotMod (modInfoBytes .zero []) truncatedModmetaInfo modId modTitle = .outOfRange :=
  ⟨rfl, rfl⟩

/-! ### Quote trimming and blank lines -/

theorem head?_dropWhile_not (p : Char → Bool) (s : Str) (c : Char)
    (h : (s.dropWhile p).head? = some c) : p c = false := by
  induction s with
  | nil => simp at h
  | cons a t ih =>
    by_cases ha : p a = true
    · rw [List.dropWhile_cons_of_pos ha] at h; exact ih h
    · rw [List.dropWhile_cons_of_neg ha] at h
      simp only [List.head?_cons, Option.some.injEq] at h
      subst h; simpa using ha

theorem trimRight_append (p : Char → Bool) (x : Str) :
    x = trimRight p x ++ (x.reverse.takeWhile p).reverse := by
  have h := List.takeWhile_append_dropWhile p x.reverse
  have h2 := congrArg List.reverse h
  rw [List.reverse_append, List.reverse_reverse] at h2
  exact h2.symm

theorem all_eq_replicate (q : Char) (l : Str) (h : ∀ c ∈ l, c = q) :
    l = List.replicate l.length q :=
  List.eq_replicate_iff.mpr ⟨rfl, h⟩

theorem trim_spec (s : Str) (q : Char) :
    ∃ n m, s = List.replicate n q ++ trim s [q] ++ List.replicate m q ∧
      (trim s [q]).head? ≠ some q ∧ (trim s [q]).getLast? ≠ some q := by
  have hp : ∀ c, ([q].contains c) = true → c = q := by
    intro c hc; simpa using hc
  have hq : ([q].contains q) = true := by simp
  set p : Char → Bool := fun c => [q].contains c with hpdef
  have h1 := (List.takeWhile_append_dropWhile p s).symm
  have h2 := trimRight_append p (s.dropWhile p)
  refine ⟨(s.takeWhile p).length, ((s.dropWhile p).reverse.takeWhile p).reverse.length, ?_, ?_, ?_⟩
  · have e1 : s.takeWhile p = List.replicate (s.takeWhile p).length q :=
      all_eq_replicate q _ (fun c hc => hp c (List.mem_takeWhile_imp hc))
    have e2 : ((s.dropWhile p).reverse.takeWhile p).reverse =
        List.replicate ((s.dropWhile p).reverse.takeWhile p).reverse.length q :=
      all_eq_replicate q _ (fun c hc => hp c (List.mem_takeWhile_imp (List.mem_reverse.mp hc)))
    rw [← e1, ← e2, List.append_assoc]
    show s = List.takeWhile p s ++ (trimRight p (s.dropWhile p) ++ _)
    rw [← h2]; exact h1
  · intro hh
    have hx : (s.dropWhile p).head? = some q := by
      rw [h2]
      show (trimRight p (s.dropWhile p) ++ _).head? = some q
      rw [List.head?_append_of_ne_nil]
      · exact hh
      · intro e; rw [show trim s [q] = trimRight p (s.dropWhile p) from rfl, e] at hh; simp at hh
    have := head?_dropWhile_not p _ _ hx
    exact Bool.noConfusion ((show p q = true from hq).symm.trans this)
  · intro hh
    have hx : ((s.dropWhile p).reverse.dropWhile p).head? = some q := by
      have : (trim s [q]).getLast? = ((s.dropWhile p).reverse.dropWhile p).head? := by
        show ((s.dropWhile p).reverse.dropWhile p).reverse.getLast? = _
        rw [List.getLast?_reverse]
      rw [← this]; exact hh
    have := head?_dropWhile_not p _ _ hx
    exact Bool.noConfusion ((show p q = true from hq).symm.trans this)

theorem splitLine_fst (line : Str) :
    (splitLine line).1 = trim (rawFields line).1 [Char.ofNat 0x22] := rfl

theorem splitLine_snd (line : Str) :
    (splitLine line).2 = trim (rawFields line).2 [Char.ofNat 0x22] := rfl

theorem splitLine_doubleQuotedLine :
    splitLine doubleQuotedLine = ("a".toList, "b".toList) := by decide

/-- C18 as stated fails: the line `a<TAB>""b""` emits the value `b`, not `"b"`. -/
theorem C18_quote_layers_counterexample :
    ReadAcf doubleQuotedLine = some [(".a".toList, "b".toList)] ∧
      ReadAcf doubleQuotedLine ≠ some [(".a".toList, "\"b\"".toList)] :=
  ⟨by decide, by decide⟩

/-- C18 (amended): for every manifest line, the key and the value are each stripped of
surrounding white space and then of all their leading and trailing double-quote
characters: each field is some quotes, the key (or value), and some quotes, and the
key and the value neither begin nor end with a quote; so the line `a<TAB>""b""` has
the value `b`. -/
theorem C18_quote_trimming (line : Str) :
    (∃ n m, (rawFields line).1 =
        List.replicate n (Char.ofNat 0x22) ++ (splitLine line).1 ++
          List.replicate m (Char.ofNat 0x22)) ∧
      (∃ n m, (rawFields line).2 =
        List.replicate n (Char.ofNat 0x22) ++ (splitLine line).2 ++
          List.replicate m (Char.ofNat 0x22)) ∧
      (splitLine line).1.head? ≠ some (Char.ofNat 0x22) ∧
      (splitLine line).1.getLast? ≠ some (Char.ofNat 0x22) ∧
      (splitLine line).2.head? ≠ some (Char.ofNat 0x22) ∧
      (splitLine line).2.getLast? ≠ some (Char.ofNat 0x22) ∧
      splitLine doubleQuotedLine = ("a".toList, "b".toList) := by
  obtain ⟨n1, m1, e1, a1, b1⟩ := trim_spec (rawFields line).1 (Char.ofNat 0x22)
  obtain ⟨n2, m2, e2, a2, b2⟩ := trim_spec (rawFields line).2 (Char.ofNat 0x22)
  rw [splitLine_fst, splitLine_snd]
  exact ⟨⟨n1, m1, e1⟩, ⟨n2, m2, e2⟩, a1, b1, a2, b2, splitLine_doubleQuotedLine⟩

/-- C19: a blank line between a section-key line and its `{` replaces the pending
section key by the empty string. For the text `"A"`, blank line, `{`, `"k"<TAB>"v"`,
`}` the pair returned by `ReadAcf` has the path `..k`, not `.A.k`. -/
theorem C19_blank_line_resets_key :
    ReadAcf blankLineText = some [("..k".toList, "v".toList)] ∧
      ReadAcf blankLineText ≠ some [(".A.k".toList, "v".toList)] :=
  ⟨by decide, by decide⟩

/-! ### The update decisions -/

theorem get?_ne_of_le (arr : List Str) (i : Nat) (x : Str) (h : arr.length ≤ i) :
    arr.get? i ≠ some x := by
  rw [List.get?_eq_getElem?, List.getElem?_eq_none h]; simp

theorem updateRequiredLoop_eq (title : Int → Str) (remote : Int → Int)
    (recordOf : Int → Option Int) :
    ∀ (modIds required : List Int),
      updateRequiredLoop (detailsOf title remote) (yamlOf title recordOf) modIds required =
        .ok (required ++ modIds.filter (fun modId => remote modId != (recordOf modId).getD 0)) := by
  intro modIds
  induction modIds with
  | nil => intro required; simp [updateRequiredLoop]
  | cons modId modIds ih =>
    intro required
    cases hrec : recordOf modId with
    | none =>
      by_cases heq : remote modId = 0
      · simp [updateRequiredLoop, detailsOf, yamlOf, hrec, heq, ih]
      · simp [updateRequiredLoop, detailsOf, yamlOf, hrec, heq, ih]
    | some u =>
      by_cases heq : remote modId = u
      · simp [updateRequiredLoop, detailsOf, yamlOf, hrec, heq, ih]
      · simp [updateRequiredLoop, detailsOf, yamlOf, hrec, heq, ih]

/-- C14 as stated fails: the item 731604991 has no local version record and a remote
time-updated value of 0, and it is not in the result. -/
theorem C14_absent_record_counterexample :
    UpdateRequiredMods (detailsOf (fun _ => []) (fun _ => 0)) (yamlOf (fun _ => []) (fun _ => none))
      [731604991] = .ok [] := by
  decide

/-- C14 (amended): for every list of item identifiers, with each item's remote
time-updated value and optional local version record given, `UpdateRequiredMods`
returns, in input order, exactly the items whose remote time-updated value differs
from the locally recorded time stamp, an absent record counting as the time stamp 0;
so every item whose local version record is absent is included in the result unless
its remote time-updated value is 0. -/
theorem C14_update_required (title : Int → Str) (remote : Int → Int)
    (recordOf : Int → Option Int) (modIds : List Int) :
    UpdateRequiredMods (detailsOf title remote) (yamlOf title recordOf) modIds =
        .ok (modIds.filter (fun modId => remote modId != (recordOf modId).getD 0)) ∧
      ∀ modId ∈ modIds, recordOf modId = none → remote modId ≠ 0 →
        modId ∈ modIds.filter (fun modId => remote modId != (recordOf modId).getD 0) := by
  refine ⟨by rw [UpdateRequiredMods, updateRequiredLoop_eq]; rfl, ?_⟩
  intro modId hmem hnone hne
  rw [List.mem_filter]
  exact ⟨hmem, by simp [hnone, hne]⟩

theorem C14_update_required_witness :
    (731604991 : Int) ∈ [(731604991 : Int)].filter
      (fun modId => (fun _ => (5 : Int)) modId != ((fun _ => (none : Option Int)) modId).getD 0) :=
  (C14_update_required (fun _ => []) (fun _ => 5) (fun _ => none) [731604991]).2
    731604991 (by decide) rfl (by decide)

/-! ### The responders -/

theorem forceInstallDirCmd_head (installDir : List Byte) :
    (forceInstallDirCmd installDir).head? = some 102 := rfl

theorem loginCmd_head : loginCmd.head? = some 108 := rfl

theorem downloadCmd_head (appId modId : Int) : (downloadCmd appId modId).head? = some 119 := rfl

theorem appUpdateCmd_head (appId : Int) : (appUpdateCmd appId).head? = some 97 := rfl

theorem quitCmd_head : quitCmd.head? = some 113 := rfl

theorem ne_of_head_ne {a b : List Byte} {x y : Byte} (ha : a.head? = some x)
    (hb : b.head? = some y) (hxy : x ≠ y) : a ≠ b := by
  intro h
  rw [h, hb] at ha
  exact hxy (Option.some.inj ha).symm

/-- One call of the responder of `UpdateMods`: the pending list is unchanged or loses
its head at a success marker for that head, the downloaded list followed by the
pending list is preserved, and `quit` is returned with an empty pending list only. -/
theorem updateModsResponder_step (installDir : List Byte) (appId : Int) (s s1 : ModsState)
    (out cmd : List Byte)
    (hstep : updateModsResponder installDir appId s out = some (s1, cmd)) :
    (s1.modIds = s.modIds ∨
        ∃ head, s.modIds = head :: s1.modIds ∧ contains out (successMarker head) = true) ∧
      s1.downloadIds ++ s1.modIds = s.downloadIds ++ s.modIds ∧
      (cmd = quitCmd → s1.modIds = []) := by
  obtain ⟨bI, bL, ids, dl⟩ := s
  cases ids with
  | nil => simp [updateModsResponder] at hstep
  | cons head tail =>
    have hfq := ne_of_head_ne (forceInstallDirCmd_head installDir) quitCmd_head (by decide)
    have hlq := ne_of_head_ne loginCmd_head quitCmd_head (by decide)
    have hdq := fun m => ne_of_head_ne (downloadCmd_head appId m) quitCmd_head (by decide)
    simp only [updateModsResponder] at hstep
    cases hfound : contains out (successMarker head) <;>
      cases bI <;>
      cases hlog : (if contains out logonMarker = true then true else bL) <;>
      simp only [hfound, hlog, Bool.not_true, Bool.not_false, if_true, if_false,
        Bool.false_eq_true] at hstep
    all_goals
      cases tail <;> simp only [Option.some.injEq, Prod.mk.injEq] at hstep <;>
        obtain ⟨h1, h2⟩ := hstep <;> subst h1 h2 <;> simp_all

theorem stateAfter_invariant (installDir : List Byte) (appId : Int) :
    ∀ (pre : List (List Byte)) (s0 s : ModsState),
      stateAfter (updateModsResponder installDir appId) s0 pre = some s →
      s.downloadIds ++ s.modIds = s0.downloadIds ++ s0.modIds := by
  intro pre
  induction pre with
  | nil => intro s0 s h; simp only [stateAfter, Option.some.injEq] at h; rw [h]
  | cons out outs ih =>
    intro s0 s h
    simp only [stateAfter] at h
    cases hr : updateModsResponder installDir appId s0 out with
    | none => rw [hr] at h; cases h
    | some r =>
      obtain ⟨s1, cmd⟩ := r
      rw [hr] at h
      rw [ih s1 s h]
      exact (updateModsResponder_step installDir appId s0 s1 out cmd hr).2.1

/-- C15: in the responder of `UpdateMods`, for every sequence of prompt outputs
`pre` and every further prompt with output `out` at which the responder returns, the
pending item list is unchanged or loses its head, the latter only when `out`
contains the success marker of that head; before and after the prompt the downloaded
list followed by the pending list is the initial item list; and `quit` is returned
only with an empty pending list. -/
theorem C15_download_progression (installDir : List Byte) (appId : Int) (modIds : List Int)
    (pre : List (List Byte)) (out : List Byte) (s s1 : ModsState) (cmd : List Byte)
    (hpre : stateAfter (updateModsResponder installDir appId) (modsStart modIds) pre = some s)
    (hstep : updateModsResponder installDir appId s out = some (s1, cmd)) :
    (s1.modIds = s.modIds ∨
        ∃ head, s.modIds = head :: s1.modIds ∧ contains out (successMarker head) = true) ∧
      s.downloadIds ++ s.modIds = modIds ∧
      s1.downloadIds ++ s1.modIds = modIds ∧
      (cmd = quitCmd → s1.modIds = []) := by
  have hinv := stateAfter_invariant installDir appId pre (modsStart modIds) s hpre
  have h := updateModsResponder_step installDir appId s s1 out cmd hstep
  simp only [modsStart, List.nil_append] at hinv
  exact ⟨h.1, hinv, h.2.1.trans hinv, h.2.2⟩

/-- Witness for C15: after the first prompt and the log-on, the prompt whose output
carries the success marker of the only item drops it, and `quit` is returned. -/
theorem C15_download_progression_witness :
    stateAfter (updateModsResponder arkDir 346110) (modsStart [731604991]) [[], logonMarker] =
        some ⟨true, true, [731604991], []⟩ ∧
      updateModsResponder arkDir 346110 ⟨true, true, [731604991], []⟩ (successMarker 731604991) =
        some (⟨true, true, [], [731604991]⟩, quitCmd) ∧
      ((([] : List Int) = [731604991] ∨
          ∃ head, [731604991] = head :: ([] : List Int) ∧
            contains (successMarker 731604991) (successMarker head) = true) ∧
        ([] : List Int) ++ [731604991] = [731604991] ∧
        [731604991] ++ ([] : List Int) = [731604991] ∧
        (quitCmd = quitCmd → ([] : List Int) = [])) :=
  ⟨by decide, by decide,
    C15_download_progression arkDir 346110 [731604991] [[], logonMarker]
      (successMarker 731604991) ⟨true, true, [731604991], []⟩ ⟨true, true, [], [731604991]⟩
      quitCmd (by decide) (by decide)⟩

/-- One call of the responder of `UpdateServer` once the install directory was sent:
the flag stays set, `force_install_dir` is not returned, a set `bDownload` stays
set and excludes `app_update`, and `app_update` sets `bDownload`. -/
theorem updateServerResponder_step (installDir : List Byte) (appId : Int)
    (s s1 : ServerState) (out cmd : List Byte) (hI : s.bInstallDir = true)
    (hstep : updateServerResponder installDir appId s out = some (s1, cmd)) :
    s1.bInstallDir = true ∧ cmd ≠ forceInstallDirCmd installDir ∧
      (s.bDownload = true → s1.bDownload = true ∧ cmd ≠ appUpdateCmd appId) ∧
      (cmd = appUpdateCmd appId → s1.bDownload = true) := by
  obtain ⟨bI, bL, bD⟩ := s
  simp only at hI
  subst hI
  have hlf := ne_of_head_ne loginCmd_head (forceInstallDirCmd_head installDir) (by decide)
  have haf := ne_of_head_ne (appUpdateCmd_head appId) (forceInstallDirCmd_head installDir)
    (by decide)
  have hqf := ne_of_head_ne quitCmd_head (forceInstallDirCmd_head installDir) (by decide)
  have hla := ne_of_head_ne loginCmd_head (appUpdateCmd_head appId) (by decide)
  have hqa := ne_of_head_ne quitCmd_head (appUpdateCmd_head appId) (by decide)
  simp only [updateServerResponder] at hstep
  cases hlog : (if contains out logonMarker = true then true else bL) <;>
    cases hdl : (if contains out (installedMarker appId) = true then true else bD) <;>
    simp only [hlog, hdl, Bool.not_true, Bool.not_false, if_true, if_false,
      Bool.false_eq_true, Option.some.injEq, Prod.mk.injEq] at hstep <;>
    obtain ⟨h1, h2⟩ := hstep <;> subst h1 h2 <;> simp_all

theorem commands_cons {σ : Type} (responder : σ → List Byte → Option (σ × List Byte))
    (s s1 : σ) (out cmd : List Byte) (outs : List (List Byte))
    (h : responder s out = some (s1, cmd)) :
    commands responder s (out :: outs) = cmd :: commands responder s1 outs := by
  simp [commands, session, h]

theorem commands_none {σ : Type} (responder : σ → List Byte → Option (σ × List Byte))
    (s : σ) (out : List Byte) (outs : List (List Byte)) (h : responder s out = none) :
    commands responder s (out :: outs) = [] := by
  simp [commands, session, h]

/-- Once the install directory was sent, `UpdateServer` does not send it again. -/
theorem server_no_force (installDir : List Byte) (appId : Int) :
    ∀ (outs : List (List Byte)) (s : ServerState), s.bInstallDir = true →
      forceInstallDirCmd installDir ∉ commands (updateServerResponder installDir appId) s outs := by
  intro outs
  induction outs with
  | nil => intro s _; simp [commands, session]
  | cons out outs ih =>
    intro s hI
    cases hr : updateServerResponder installDir appId s out with
    | none => rw [commands_none _ _ _ _ hr]; simp
    | some r =>
      obtain ⟨s1, cmd⟩ := r
      obtain ⟨h1, h2, _, _⟩ := updateServerResponder_step installDir appId s s1 out cmd hI hr
      rw [commands_cons _ _ _ _ _ _ hr, List.mem_cons, not_or]
      exact ⟨fun e => h2 e.symm, ih s1 h1⟩

/-- Once `bDownload` is set, `UpdateServer` does not send `app_update`. -/
theorem server_no_appUpdate (installDir : List Byte) (appId : Int) :
    ∀ (outs : List (List Byte)) (s : ServerState), s.bInstallDir = true → s.bDownload = true →
      (commands (updateServerResponder installDir appId) s outs).count (appUpdateCmd appId) = 0 := by
  intro outs
  induction outs with
  | nil => intro s _ _; simp [commands, session]
  | cons out outs ih =>
    intro s hI hD
    cases hr : updateServerResponder installDir appId s out with
    | none => rw [commands_none _ _ _ _ hr]; simp
    | some r =>
      obtain ⟨s1, cmd⟩ := r
      obtain ⟨h1, _, h3, _⟩ := updateServerResponder_step installDir appId s s1 out cmd hI hr
      obtain ⟨h4, h5⟩ := h3 hD
      rw [commands_cons _ _ _ _ _ _ hr, List.count_cons_of_ne (Ne.symm h5)]
      exact ih s1 h1 h4

/-- After the install directory was sent, `UpdateServer` sends `app_update` at most
once. -/
theorem server_appUpdate_once (installDir : List Byte) (appId : Int) :
    ∀ (outs : List (List Byte)) (s : ServerState), s.bInstallDir = true →
      (commands (updateServerResponder installDir appId) s outs).count (appUpdateCmd appId) ≤ 1 := by
  intro outs
  induction outs with
  | nil => intro s _; simp [commands, session]
  | cons out outs ih =>
    intro s hI
    cases hr : updateServerResponder installDir appId s out with
    | none => rw [commands_none _ _ _ _ hr]; simp
    | some r =>
      obtain ⟨s1, cmd⟩ := r
      obtain ⟨h1, _, _, h4⟩ := updateServerResponder_step installDir appId s s1 out cmd hI hr
      rw [commands_cons _ _ _ _ _ _ hr]
      by_cases hc : cmd = appUpdateCmd appId
      · rw [hc, List.count_cons_self, server_no_appUpdate installDir appId outs s1 h1 (h4 hc)]
      · rw [List.count_cons_of_ne (Ne.symm hc)]
        exact ih s1 h1

/-- One call of the responder of `UpdateMods` once the install directory was sent: the
flag stays set and `force_install_dir` is not returned. -/
theorem updateModsResponder_installed (installDir : List Byte) (appId : Int)
    (s s1 : ModsState) (out cmd : List Byte) (hI : s.bInstallDir = true)
    (hstep : updateModsResponder installDir appId s out = some (s1, cmd)) :
    s1.bInstallDir = true ∧ cmd ≠ forceInstallDirCmd installDir := by
  obtain ⟨bI, bL, ids, dl⟩ := s
  simp only at hI
  subst hI
  cases ids with
  | nil => simp [updateModsResponder] at hstep
  | cons head tail =>
    have hlf := ne_of_head_ne loginCmd_head (forceInstallDirCmd_head installDir) (by decide)
    have hdf := fun m =>
      ne_of_head_ne (downloadCmd_head appId m) (forceInstallDirCmd_head installDir) (by decide)
    have hqf := ne_of_head_ne quitCmd_head (forceInstallDirCmd_head installDir) (by decide)
    simp only [updateModsResponder] at hstep
    cases hfound : contains out (successMarker head) <;>
      cases hlog : (if contains out logonMarker = true then true else bL) <;>
      simp only [hfound, hlog, Bool.not_true, Bool.not_false, if_true, if_false,
        Bool.false_eq_true] at hstep
    all_goals
      cases tail <;> simp only [Option.some.injEq, Prod.mk.injEq] at hstep <;>
        obtain ⟨h1, h2⟩ := hstep <;> subst h1 h2 <;> simp_all

/-- Once the install directory was sent, `UpdateMods` does not send it again. -/
theorem mods_no_force (installDir : List Byte) (appId : Int) :
    ∀ (outs : List (List Byte)) (s : ModsState), s.bInstallDir = true →
      forceInstallDirCmd installDir ∉ commands (updateModsResponder installDir appId) s outs := by
  intro outs
  induction outs with
  | nil => intro s _; simp [commands, session]
  | cons out outs ih =>
    intro s hI
    cases hr : updateModsResponder installDir appId s out with
    | none => rw [commands_none _ _ _ _ hr]; simp
    | some r =>
      obtain ⟨s1, cmd⟩ := r
      obtain ⟨h1, h2⟩ := updateModsResponder_installed installDir appId s s1 out cmd hI hr
      rw [commands_cons _ _ _ _ _ _ hr, List.mem_cons, not_or]
      exact ⟨fun e => h2 e.symm, ih s1 h1⟩

/-- C17 as stated fails: with one item to download, the outputs of the third and
fourth prompt lack its success marker and the download command is sent again each
time; and `UpdateServer` sends `login anonymous` at every prompt until the log-on
marker is seen. -/
theorem C17_commands_repeat_counterexample :
    contains [] (successMarker 731604991) = false ∧
      commands (updateModsResponder arkDir 346110) (modsStart [731604991])
          [[], logonMarker, [], []] =
        [forceInstallDirCmd arkDir, downloadCmd 346110 731604991,
          downloadCmd 346110 731604991, downloadCmd 346110 731604991] ∧
      commands (updateServerResponder arkDir 376030) serverStart [[], [], []] =
        [forceInstallDirCmd arkDir, loginCmd, loginCmd] :=
  ⟨by decide, by decide, by decide⟩

/-- C17 (amended): in the responders of `UpdateMods` and `UpdateServer`, for every
sequence of prompt outputs, `force_install_dir` is issued at the first prompt only,
and `UpdateServer` issues `app_update <id> validate` at most once. The other commands
are issued again: once the install directory was sent and the log-on was seen, a
prompt whose output lacks the success marker of the head item makes `UpdateMods`
return `workshop_download_item <appId> <itemId>` for that item again, its variables
unchanged; and before the log-on is seen both responders return `login anonymous`
at every prompt whose output lacks the log-on marker. -/
theorem C17_reissued_commands (installDir : List Byte) (appId : Int) :
    (∀ outs : List (List Byte),
        forceInstallDirCmd installDir ∉
          (commands (updateServerResponder installDir appId) serverStart outs).tail ∧
        (commands (updateServerResponder installDir appId) serverStart outs).count
          (appUpdateCmd appId) ≤ 1) ∧
      (∀ (modIds : List Int) (outs : List (List Byte)),
        forceInstallDirCmd installDir ∉
          (commands (updateModsResponder installDir appId) (modsStart modIds) outs).tail) ∧
      (∀ (head : Int) (tail downloadIds : List Int) (out : List Byte),
        contains out (successMarker head) = false →
        updateModsResponder installDir appId ⟨true, true, head :: tail, downloadIds⟩ out =
          some (⟨true, true, head :: tail, downloadIds⟩, downloadCmd appId head)) ∧
      (∀ (head : Int) (tail downloadIds : List Int) (out : List Byte),
        contains out logonMarker = false → contains out (successMarker head) = false →
        updateModsResponder installDir appId ⟨true, false, head :: tail, downloadIds⟩ out =
          some (⟨true, false, head :: tail, downloadIds⟩, loginCmd)) ∧
      (∀ (bDownload : Bool) (out : List Byte),
        contains out logonMarker = false → contains out (installedMarker appId) = false →
        updateServerResponder installDir appId ⟨true, false, bDownload⟩ out =
          some (⟨true, false, bDownload⟩, loginCmd)) := by
  refine ⟨?_, ?_, ?_, ?_, ?_⟩
  · intro outs
    cases outs with
    | nil => simp [commands, session]
    | cons out outs =>
      have hr : updateServerResponder installDir appId serverStart out =
          some (⟨true, if contains out logonMarker = true then true else false,
            if contains out (installedMarker appId) = true then true else false⟩,
            forceInstallDirCmd installDir) := by
        simp [updateServerResponder, serverStart]
      rw [commands_cons _ _ _ _ _ _ hr, List.tail_cons,
        List.count_cons_of_ne
          (ne_of_head_ne (appUpdateCmd_head appId) (forceInstallDirCmd_head installDir)
            (by decide))]
      exact ⟨server_no_force installDir appId outs _ rfl,
        server_appUpdate_once installDir appId outs _ rfl⟩
  · intro modIds outs
    cases outs with
    | nil => simp [commands, session]
    | cons out outs =>
      cases hr : updateModsResponder installDir appId (modsStart modIds) out with
      | none => rw [commands_none _ _ _ _ hr]; simp
      | some r =>
        obtain ⟨s1, cmd⟩ := r
        have hI : s1.bInstallDir = true := by
          cases modIds with
          | nil => simp [updateModsResponder, modsStart] at hr
          | cons head tail =>
            simp only [updateModsResponder, modsStart, Bool.not_false, if_true,
              Option.some.injEq, Prod.mk.injEq] at hr
            rw [← hr.1]
        rw [commands_cons _ _ _ _ _ _ hr, List.tail_cons]
        exact mods_no_force installDir appId outs s1 hI
  · intro head tail downloadIds out hfound
    simp [updateModsResponder, hfound]
  · intro head tail downloadIds out hlog hfound
    simp [updateModsResponder, hfound, hlog]
  · intro bDownload out hlog hdl
    simp [updateServerResponder, hlog, hdl]

/-- Witness for C17 (amended): logged on with one pending item, an empty output makes
the responder of `UpdateMods` return the download command again. -/
theorem C17_reissued_commands_witness :
    contains [] (successMarker 731604991) = false ∧
      updateModsResponder arkDir 346110 ⟨true, true, [731604991], []⟩ [] =
        some (⟨true, true, [731604991], []⟩, downloadCmd 346110 731604991) :=
  ⟨by decide, (C17_reissued_commands arkDir 346110).2.2.1 731604991 [] [] [] (by decide)⟩

/-! ### The reader loop -/

theorem span_append_cons (p : Byte → Bool) (a : Byte) (t : List Byte) :
    ∀ l : List Byte, (∀ x ∈ l, p x = true) → p a = false →
      (l ++ a :: t).span p = (l, a :: t) := by
  intro l
  induction l with
  | nil => intro _ ha; simp [List.span_eq_take_drop, ha]
  | cons x xs ih =>
    intro hl ha
    have hx := hl x (List.mem_cons_self _ _)
    have := ih (fun y hy => hl y (List.mem_cons_of_mem _ hy)) ha
    rw [List.span_eq_take_drop] at this ⊢
    simp only [List.cons_append, List.takeWhile_cons, List.dropWhile_cons, hx, if_true]
    rw [Prod.mk.injEq] at this ⊢
    exact ⟨by rw [this.1], this.2⟩

/-- `ReadLine` on a line shorter than the buffer that does not end in a carriage
return: the line, no continuation, and what follows the line feed. -/
theorem readLine_line (size : Nat) (l rest : List Byte) (hnl : (0x0A : Byte) ∉ l)
    (hshort : l.length < size) (hcr : l.getLast? ≠ some 0x0D) :
    readLine size (l ++ 0x0A :: rest) = (l, false, rest) := by
  have htake : (l ++ 0x0A :: rest).take size =
      l ++ 0x0A :: rest.take (size - l.length - 1) := by
    rw [List.take_append_eq_append_take, List.take_of_length_le (Nat.le_of_lt hshort)]
    obtain ⟨k, hk⟩ : ∃ k, size - l.length = k + 1 := ⟨size - l.length - 1, by omega⟩
    rw [hk, List.take_succ_cons]
    simp
  have hspan := span_append_cons (fun b => b != 0x0A) 0x0A
    (rest.take (size - l.length - 1)) l
    (by
      intro x hx
      simp only [bne_iff_ne, ne_eq]
      intro e; exact hnl (e ▸ hx))
    (by simp)
  unfold readLine
  rw [htake, hspan]
  simp only
  have hdrop : (l ++ 0x0A :: rest).drop (l.length + 1) = rest := by
    rw [← List.drop_drop, List.drop_left' rfl, List.drop_succ_cons, List.drop_zero]
  rw [if_neg hcr, hdrop]

theorem prompt_length : prompt.length = 6 := rfl

/-- A line that does not begin with the prompt token is not taken for the prompt. -/
theorem take_ne_prompt (l rest : List Byte) (hp : startsWith l prompt = false) :
    (l ++ 0x0A :: rest).take 6 ≠ prompt := by
  intro h
  by_cases hlen : 6 ≤ l.length
  · rw [List.take_append_of_le_length hlen] at h
    simp [startsWith, prompt_length, h] at hp
  · have hmem : (0x0A : Byte) ∈ (l ++ 0x0A :: rest).take 6 := by
      rw [List.take_append_eq_append_take]
      obtain ⟨k, hk⟩ : ∃ k, 6 - l.length = k + 1 := ⟨6 - l.length - 1, by omega⟩
      rw [hk, List.take_succ_cons]
      simp
    rw [h] at hmem
    revert hmem
    decide

theorem events_line (size fuel : Nat) (l rest : List Byte) (hnl : (0x0A : Byte) ∉ l)
    (hshort : l.length < size) (hcr : l.getLast? ≠ some 0x0D)
    (hp : startsWith l prompt = false) (hrest : 5 ≤ l.length + rest.length) :
    events size (fuel + 1) (l ++ 0x0A :: rest) =
      (events size fuel rest).map (fun evs => ReadEvent.line l false :: evs) := by
  rw [events, if_neg (by simp; omega), if_neg (take_ne_prompt l rest hp),
    readLine_line size l rest hnl hshort hcr]

theorem events_prompt (size fuel : Nat) (rest : List Byte) :
    events size (fuel + 1) (prompt ++ rest) =
      (events size fuel rest).map (fun evs => ReadEvent.prompt :: evs) := by
  rw [events, if_neg (by simp [prompt_length]), if_pos (List.take_left' prompt_length),
    List.drop_left' prompt_length]

theorem events_end (size fuel : Nat) (s : List Byte) (h : s.length < 6) :
    events size (fuel + 1) s = some [] := by
  rw [events, if_pos h]

theorem trimSpaceRev_length_le : ∀ r : List Byte, (trimSpaceRev r).length ≤ r.length := by
  intro r
  induction r using trimSpaceRev.induct with
  | case1 a b c t h ih => rw [trimSpaceRev, if_pos h]; simp only [List.length_cons] at ih ⊢; omega
  | case2 a b c t h1 h2 ih =>
    rw [trimSpaceRev, if_neg h1, if_pos h2]; simp only [List.length_cons] at ih ⊢; omega
  | case3 a b c t h1 h2 h3 ih =>
    rw [trimSpaceRev, if_neg h1, if_neg h2, if_pos h3]; simp only [List.length_cons] at ih ⊢; omega
  | case4 a b c t h1 h2 h3 => rw [trimSpaceRev, if_neg h1, if_neg h2, if_neg h3]
  | case5 a b h ih => rw [trimSpaceRev, if_pos h]; simp only [List.length_cons] at ih ⊢; omega
  | case6 a b h1 h2 => rw [trimSpaceRev, if_neg h1, if_pos h2]; simp
  | case7 a b h1 h2 => rw [trimSpaceRev, if_neg h1, if_neg h2]
  | case8 a h => rw [trimSpaceRev, if_pos h]; simp
  | case9 a h => rw [trimSpaceRev, if_neg h]
  | case10 => simp [trimSpaceRev]

theorem trimSpaceRev_cons_space (a : Byte) (r : List Byte) (h : asciiSpace a = true) :
    trimSpaceRev (a :: r) = trimSpaceRev r := by
  match r with
  | [] => simp [trimSpaceRev, h]
  | [b] => simp [trimSpaceRev, h]
  | b :: c :: t => simp [trimSpaceRev, h]

/-- A line that white-space trimming leaves unchanged does not end in white space
of one byte. -/
theorem getLast?_of_trimRightSpace (l : List Byte) (a : Byte) (h : trimRightSpace l = l)
    (ha : asciiSpace a = true) : l.getLast? ≠ some a := by
  intro hlast
  have hrev : l.reverse = a :: l.dropLast.reverse := by
    have h1 := List.dropLast_append_getLast? a (Option.mem_def.mpr hlast)
    conv_lhs => rw [← h1]
    simp
  have hlen := congrArg List.length h
  unfold trimRightSpace at hlen
  rw [List.length_reverse, hrev, trimSpaceRev_cons_space a _ ha] at hlen
  have h2 := trimSpaceRev_length_le l.dropLast.reverse
  have h3 : l ≠ [] := by intro e; rw [e] at hlast; simp at hlast
  have h4 := List.length_pos.mpr h3
  simp only [List.length_reverse, List.length_dropLast] at h2
  omega

/-- The buffered reader always delivers its results within the bound: every
iteration of the loop consumes at least one byte. -/
theorem events_isSome (size : Nat) (hsize : 2 ≤ size) :
    ∀ (fuel : Nat) (s : List Byte), s.length < fuel → ∃ evs, events size fuel s = some evs := by
  intro fuel
  induction fuel with
  | zero => intro s h; omega
  | succ fuel ih =>
    intro s h
    rw [events]
    by_cases h6 : s.length < 6
    · rw [if_pos h6]; exact ⟨_, rfl⟩
    · rw [if_neg h6]
      by_cases hp : s.take 6 = prompt
      · rw [if_pos hp]
        obtain ⟨evs, he⟩ := ih (s.drop 6) (by rw [List.length_drop]; omega)
        rw [he]; exact ⟨_, rfl⟩
      · rw [if_neg hp]
        have hprog : (readLine size s).2.2.length < s.length := by
          unfold readLine
          split
          · rename_i line c t hspan
            split <;> (simp only [List.length_drop]; omega)
          · split
            · split <;> (simp only [List.length_drop]; omega)
            · simp only [List.length_nil]; omega
        obtain ⟨evs, he⟩ := ih (readLine size s).2.2 (by omega)
        cases hr : readLine size s with
        | mk data r2 =>
          cases r2 with
          | mk more rest =>
            rw [hr] at he
            simp only at he ⊢
            rw [he]; exact ⟨_, rfl⟩

/-- The model of the reader loop of `Run` always produces its calls. -/
theorem responderCalls_total (s : List Byte) : ∃ calls, responderCalls s = some calls := by
  obtain ⟨evs, he⟩ := events_isSome defaultBufSize (by decide) (s.length + 1) s (by omega)
  exact ⟨_, by rw [responderCalls, he]; rfl⟩

/-- C16 as stated fails: when the first of the three lines is `Steam>a` the responder
is invoked three times, the first time before any line; and when the first line is
`a ` (ending in a space) the first invocation receives `a`, `b`, `c` joined by
newlines, not the three lines as emitted. -/
theorem C16_prompt_batching_counterexample :
    responderCalls promptLineStream = some [[], utf8 "a\nb\nc", []] ∧
      responderCalls spaceLineStream = some [utf8 "a\nb\nc", []] ∧
      utf8 "a\nb\nc" ≠ utf8 "a \nb\nc" :=
  ⟨by decide, by decide, by decide⟩

/-- C16 (amended): for an output consisting of three newline-terminated non-empty
lines, none of which begins with the prompt token, ends in white space or is as long
as the reader's buffer of 4096 bytes, followed by the prompt token `Steam>` twice,
the responder is invoked exactly twice; the first invocation receives the three
lines joined by newlines and the second receives the empty string. -/
theorem C16_prompt_batching (l1 l2 l3 : List Byte)
    (hnl : ∀ l ∈ [l1, l2, l3], (0x0A : Byte) ∉ l)
    (hlen : ∀ l ∈ [l1, l2, l3], l ≠ [] ∧ l.length < defaultBufSize)
    (hp : ∀ l ∈ [l1, l2, l3], startsWith l prompt = false)
    (hsp : ∀ l ∈ [l1, l2, l3], trimRightSpace l = l) :
    responderCalls (l1 ++ [0x0A] ++ l2 ++ [0x0A] ++ l3 ++ [0x0A] ++ prompt ++ prompt) =
      some [l1 ++ [0x0A] ++ l2 ++ [0x0A] ++ l3, []] := by
  have hs : l1 ++ [0x0A] ++ l2 ++ [0x0A] ++ l3 ++ [0x0A] ++ prompt ++ prompt =
      l1 ++ 0x0A :: (l2 ++ 0x0A :: (l3 ++ 0x0A :: (prompt ++ (prompt ++ [])))) := by
    simp
  have m1 : l1 ∈ [l1, l2, l3] := by simp
  have m2 : l2 ∈ [l1, l2, l3] := by simp
  have m3 : l3 ∈ [l1, l2, l3] := by simp
  have c1 := getLast?_of_trimRightSpace l1 0x0D (hsp l1 m1) (by decide)
  have c2 := getLast?_of_trimRightSpace l2 0x0D (hsp l2 m2) (by decide)
  have c3 := getLast?_of_trimRightSpace l3 0x0D (hsp l3 m3) (by decide)
  have e1 := hsp l1 m1
  have e2 := hsp l2 m2
  have e3 := hsp l3 m3
  have n1 := (hlen l1 m1).1
  have n2 := (hlen l2 m2).1
  have n3 := (hlen l3 m3).1
  rw [hs, responderCalls]
  obtain ⟨k, hk⟩ : ∃ k, (l1 ++ 0x0A :: (l2 ++ 0x0A :: (l3 ++ 0x0A ::
      (prompt ++ (prompt ++ []))))).length + 1 = k + 6 :=
    ⟨l1.length + l2.length + l3.length + 10, by simp [prompt_length]; omega⟩
  rw [hk, show k + 6 = (k + 5) + 1 from rfl,
    events_line _ _ l1 _ (hnl l1 m1) (hlen l1 m1).2 c1 (hp l1 m1) (by simp [prompt_length]; omega),
    show k + 5 = (k + 4) + 1 from rfl,
    events_line _ _ l2 _ (hnl l2 m2) (hlen l2 m2).2 c2 (hp l2 m2) (by simp [prompt_length]; omega),
    show k + 4 = (k + 3) + 1 from rfl,
    events_line _ _ l3 _ (hnl l3 m3) (hlen l3 m3).2 c3 (hp l3 m3) (by simp [prompt_length]),
    show k + 3 = (k + 2) + 1 from rfl, events_prompt,
    show k + 2 = (k + 1) + 1 from rfl, events_prompt,
    events_end _ _ _ (by simp)]
  simp [driverRun, driverStep, driverStart, e1, e2, e3, n1, n2, n3, joinLines,
    List.intercalate]

/-- Witness for C16 (amended): the lines `ab`, `c d` and `e`. -/
theorem C16_prompt_batching_witness :
    responderCalls (utf8 "ab" ++ [0x0A] ++ utf8 "c d" ++ [0x0A] ++ utf8 "e" ++ [0x0A]
        ++ prompt ++ prompt) =
      some [utf8 "ab" ++ [0x0A] ++ utf8 "c d" ++ [0x0A] ++ utf8 "e", []] :=
  C16_prompt_batching (utf8 "ab") (utf8 "c d") (utf8 "e") (by decide) (by decide) (by decide)
    (by decide)

/-! ### Lines delivered in fragments -/

theorem driverRun_append (d : Driver) (e1 e2 : List ReadEvent) :
    driverRun d (e1 ++ e2) = driverRun (driverRun d e1) e2 := by
  simp [driverRun, List.foldl_append]

/-- After fragments with the continuation flag, only the last of them is kept. -/
theorem driverRun_fragments (fs : List (List Byte)) :
    ∀ d : Driver, driverRun d (fs.map (fun f => ReadEvent.line f true)) =
      { d with pfx := fs.getLast?.getD d.pfx } := by
  induction fs with
  | nil => intro d; rfl
  | cons f fs ih =>
    intro d
    rw [List.map_cons, driverRun, List.foldl_cons]
    have := ih (driverStep d (.line f true))
    rw [driverRun] at this
    rw [this]
    cases fs with
    | nil => rfl
    | cons g gs =>
      obtain ⟨x, hx⟩ : ∃ x, (g :: gs).getLast? = some x :=
        ⟨_, List.getLast?_eq_getLast _ (List.cons_ne_nil _ _)⟩
      simp [List.getLast?_cons_cons, driverStep, hx]

/-- The line appended for a line delivered in fragments: the last fragment with the
continuation flag, followed by the final fragment, white space trimmed. -/
theorem driverRun_fragmentEvents (d : Driver) (fs : List (List Byte)) (last : List Byte)
    (hne : trimRightSpace (fs.getLast?.getD d.pfx ++ last) ≠ []) :
    driverRun d (fragmentEvents fs last) =
      { d with pfx := [],
               lines := d.lines ++ [trimRightSpace (fs.getLast?.getD d.pfx ++ last)] } := by
  rw [fragmentEvents, driverRun_append, driverRun_fragments]
  simp [driverRun, driverStep, hne]

/-- `ReadLine` on a source that begins with a full buffer without line feed: the
buffer, with the continuation flag. -/
theorem readLine_full (size : Nat) (frag rest : List Byte) (hsize : frag.length = size)
    (hnl : (0x0A : Byte) ∉ frag) (hcr : frag.getLast? ≠ some 0x0D) :
    readLine size (frag ++ rest) = (frag, true, rest) := by
  have hspan : frag.span (fun b => b != 0x0A) = (frag, []) := by
    rw [List.span_eq_take_drop]
    have hall : ∀ x ∈ frag, (fun b : Byte => b != 0x0A) x = true := by
      intro x hx
      simp only [bne_iff_ne, ne_eq]
      intro e; exact hnl (e ▸ hx)
    rw [List.takeWhile_eq_self_iff.mpr hall, List.dropWhile_eq_nil_iff.mpr hall]
  unfold readLine
  rw [List.take_left' hsize, hspan]
  simp only
  rw [if_pos (by rw [List.length_append]; omega), if_neg hcr, List.drop_left' hsize]

theorem events_fragment (size fuel : Nat) (frag rest : List Byte) (hsize : frag.length = size)
    (h6 : 6 ≤ size) (hnl : (0x0A : Byte) ∉ frag) (hcr : frag.getLast? ≠ some 0x0D)
    (hp : startsWith frag prompt = false) :
    events size (fuel + 1) (frag ++ rest) =
      (events size fuel rest).map (fun evs => ReadEvent.line frag true :: evs) := by
  have htake : (frag ++ rest).take 6 ≠ prompt := by
    rw [List.take_append_of_le_length (by omega)]
    intro h
    simp [startsWith, prompt_length, h] at hp
  rw [events, if_neg (by rw [List.length_append]; omega), if_neg htake,
    readLine_full size frag rest hsize hnl hcr]

theorem trimSpaceRev_cons_ascii (a : Byte) (r : List Byte) (ha : a.val < 128)
    (hs : asciiSpace a = false) : trimSpaceRev (a :: r) = a :: r := by
  have h2 : ∀ b, space2 b a = false := by
    intro b
    have e1 : (a == 0x85) = false := by
      rw [beq_eq_false_iff_ne]; intro e; rw [e] at ha; revert ha; decide
    have e2 : (a == 0xA0) = false := by
      rw [beq_eq_false_iff_ne]; intro e; rw [e] at ha; revert ha; decide
    simp [space2, e1, e2]
  have h3 : ∀ c b, space3 c b a = false := by
    intro c b
    have e1 : (a == 0x80) = false := by
      rw [beq_eq_false_iff_ne]; intro e; rw [e] at ha; revert ha; decide
    have e2 : (a == 0xA8) = false := by
      rw [beq_eq_false_iff_ne]; intro e; rw [e] at ha; revert ha; decide
    have e3 : (a == 0xA9) = false := by
      rw [beq_eq_false_iff_ne]; intro e; rw [e] at ha; revert ha; decide
    have e4 : (a == 0xAF) = false := by
      rw [beq_eq_false_iff_ne]; intro e; rw [e] at ha; revert ha; decide
    have e5 : (a == 0x9F) = false := by
      rw [beq_eq_false_iff_ne]; intro e; rw [e] at ha; revert ha; decide
    have e6 : decide (0x80 ≤ a.val) = false := by
      rw [decide_eq_false_iff_not]; omega
    simp [space3, e1, e2, e3, e4, e5, e6]
  match r with
  | [] => simp [trimSpaceRev, hs]
  | [b] => simp [trimSpaceRev, hs, h2]
  | b :: c :: t => simp [trimSpaceRev, hs, h2, h3]

/-- A line that ends in an ASCII byte other than white space is left unchanged by the
trimming. -/
theorem trimRightSpace_append_ascii (l : List Byte) (a : Byte) (ha : a.val < 128)
    (hs : asciiSpace a = false) : trimRightSpace (l ++ [a]) = l ++ [a] := by
  unfold trimRightSpace
  rw [List.reverse_append, List.reverse_singleton, List.singleton_append,
    trimSpaceRev_cons_ascii a _ ha hs]
  simp

/-- C20: a line delivered in three fragments is not reassembled. With the fragments
`a`, `b` (continuation flag set) and `c`, the line appended to the buffer is `bc`,
not `abc`; and for an output line of 8193 bytes (4096 times `a`, 4096 times `b`, then
`c`), which the 4096-byte buffered reader delivers in three fragments, the responder
receives only the last 4097 bytes. -/
theorem C20_fragments_lost :
    driverRun driverStart (fragmentEvents [[97], [98]] [99]) = ⟨[], [[98, 99]], []⟩ ∧
      trimRightSpace ([97] ++ [98] ++ [99]) = [97, 98, 99] ∧
      responderCalls longLineStream = some [List.replicate 4096 98 ++ [99]] := by
  refine ⟨by decide, by decide, ?_⟩
  have hlen : longLineStream.length + 1 = 8196 + 5 := by
    simp only [longLineStream, List.length_append, List.length_replicate, List.length_cons,
      prompt_length, List.length_nil]
  have hnl : ∀ b : Byte, b ≠ 0x0A → ∀ n, (0x0A : Byte) ∉ List.replicate n b := by
    intro b hb n h
    exact hb (List.eq_of_mem_replicate h).symm
  have hcr : ∀ b : Byte, b ≠ 0x0D → ∀ n, (List.replicate n b).getLast? ≠ some 0x0D := by
    intro b hb n h
    exact hb (List.eq_of_mem_replicate (List.mem_of_getLast?_eq_some h)).symm
  have hp : ∀ b : Byte, b ≠ 83 → startsWith (List.replicate 4096 b) prompt = false := by
    intro b hb
    rw [startsWith, prompt_length, show (4096 : Nat) = 6 + 4090 from rfl, List.replicate_add,
      List.take_left' (List.length_replicate _ _)]
    rw [beq_eq_false_iff_ne]
    intro h
    have : (83 : Byte) ∈ List.replicate 6 b := by rw [h]; decide
    exact hb (List.eq_of_mem_replicate this).symm
  rw [responderCalls, hlen, longLineStream, defaultBufSize,
    show 8196 + 5 = (8196 + 4) + 1 from rfl,
    events_fragment 4096 _ _ _ (List.length_replicate _ _) (by decide)
      (hnl 97 (by decide) _) (hcr 97 (by decide) _) (hp 97 (by decide)),
    show 8196 + 4 = (8196 + 3) + 1 from rfl,
    events_fragment 4096 _ _ _ (List.length_replicate _ _) (by decide)
      (hnl 98 (by decide) _) (hcr 98 (by decide) _) (hp 98 (by decide)),
    show 8196 + 3 = (8196 + 2) + 1 from rfl,
    events_line 4096 _ [99] _ (by decide) (by decide) (by decide) (by decide)
      (by simp [prompt_length]),
    show 8196 + 2 = (8196 + 1) + 1 from rfl, events_prompt,
    events_end _ _ _ (by simp)]
  have htrim := trimRightSpace_append_ascii (List.replicate 4096 98) 99 (by decide) (by decide)
  simp only [Option.map_some', Option.map_map, Function.comp]
  simp only [driverRun, List.foldl_cons, List.foldl_nil, driverStep, driverStart,
    List.nil_append, htrim, joinLines, List.intercalate]
  rw [if_neg (List.append_ne_nil_of_right_ne_nil _ (List.cons_ne_nil _ _))]
  simp only [List.nil_append, List.intersperse_single, List.flatten_cons, List.flatten_nil,
    List.append_nil]

/-! ### The command order of `UpdateServer` -/

/-- One call of the responder of `UpdateServer`, in closed form. -/
theorem updateServerResponder_eq (installDir : List Byte) (appId : Int) (s : ServerState)
    (out : List Byte) :
    updateServerResponder installDir appId s out =
      some (⟨true, contains out logonMarker || s.bLogon,
          (contains out (installedMarker appId) || s.bDownload) ||
            (s.bInstallDir && (contains out logonMarker || s.bLogon))⟩,
        if s.bInstallDir = false then forceInstallDirCmd installDir
        else if (contains out logonMarker || s.bLogon) = false then loginCmd
        else if (contains out (installedMarker appId) || s.bDownload) = false then
          appUpdateCmd appId
        else quitCmd) := by
  obtain ⟨bI, bL, bD⟩ := s
  simp only [updateServerResponder]
  cases bI <;> cases bL <;> cases bD <;> cases contains out logonMarker <;>
    cases contains out (installedMarker appId) <;> rfl

theorem server_commands_length (installDir : List Byte) (appId : Int) :
    ∀ (outs : List (List Byte)) (s : ServerState),
      (commands (updateServerResponder installDir appId) s outs).length = outs.length := by
  intro outs
  induction outs with
  | nil => intro s; rfl
  | cons out outs ih =>
    intro s
    rw [commands_cons _ _ _ _ _ _ (updateServerResponder_eq installDir appId s out),
      List.length_cons, List.length_cons, ih]

/-- With the three flags set, every command is `quit`. -/
theorem server_all_quit (installDir : List Byte) (appId : Int) :
    ∀ (outs : List (List Byte)) (s : ServerState),
      s.bInstallDir = true → s.bLogon = true → s.bDownload = true →
      ∀ j : Nat, j < outs.length →
        (commands (updateServerResponder installDir appId) s outs)[j]? = some quitCmd := by
  intro outs
  induction outs with
  | nil => intro s _ _ _ j hj; simp at hj
  | cons out outs ih =>
    intro s hI hL hD j hj
    rw [commands_cons _ _ _ _ _ _ (updateServerResponder_eq installDir appId s out)]
    cases j with
    | zero => simp [hI, hL, hD]
    | succ j =>
      rw [List.getElem?_cons_succ]
      exact ih _ rfl (by simp [hL]) (by simp [hD]) j (by simpa using hj)

/-- Every command after `app_update` is `quit`. -/
theorem server_after_appUpdate (installDir : List Byte) (appId : Int) :
    ∀ (outs : List (List Byte)) (s : ServerState) (i j : Nat), i < j → j < outs.length →
      (commands (updateServerResponder installDir appId) s outs)[i]? = some (appUpdateCmd appId) →
      (commands (updateServerResponder installDir appId) s outs)[j]? = some quitCmd := by
  intro outs
  induction outs with
  | nil => intro s i j _ hj; simp at hj
  | cons out outs ih =>
    intro s i j hij hj hi
    have hfa := ne_of_head_ne (forceInstallDirCmd_head installDir) (appUpdateCmd_head appId)
      (by decide)
    have hla := ne_of_head_ne loginCmd_head (appUpdateCmd_head appId) (by decide)
    have hqa := ne_of_head_ne quitCmd_head (appUpdateCmd_head appId) (by decide)
    rw [commands_cons _ _ _ _ _ _ (updateServerResponder_eq installDir appId s out)] at hi ⊢
    cases j with
    | zero => omega
    | succ j =>
      rw [List.getElem?_cons_succ]
      cases i with
      | zero =>
        rw [List.getElem?_cons_zero, Option.some.injEq] at hi
        have hI : s.bInstallDir = true := by
          cases h : s.bInstallDir
          · rw [h, if_pos rfl] at hi; exact absurd hi hfa
          · rfl
        rw [hI, if_neg (by decide)] at hi
        have hL : (contains out logonMarker || s.bLogon) = true := by
          cases h : (contains out logonMarker || s.bLogon)
          · rw [h, if_pos rfl] at hi; exact absurd hi hla
          · rfl
        exact server_all_quit installDir appId outs _ rfl hL (by simp [hI, hL]) j
          (by simpa using hj)
      | succ i =>
        rw [List.getElem?_cons_succ] at hi
        exact ih _ i j (by omega) (by simpa using hj) hi

/-- Until the log-on marker is seen, every command after `force_install_dir` is
`login anonymous`. -/
theorem server_login_until (installDir : List Byte) (appId : Int) :
    ∀ (outs : List (List Byte)) (s : ServerState), s.bInstallDir = true → s.bLogon = false →
      ∀ i : Nat, i < outs.length →
        (∀ j : Nat, j ≤ i → ∀ out, outs[j]? = some out → contains out logonMarker = false) →
        (commands (updateServerResponder installDir appId) s outs)[i]? = some loginCmd := by
  intro outs
  induction outs with
  | nil => intro s _ _ i hi; simp at hi
  | cons out outs ih =>
    intro s hI hL i hi hno
    have h0 : contains out logonMarker = false := hno 0 (Nat.zero_le _) out List.getElem?_cons_zero
    rw [commands_cons _ _ _ _ _ _ (updateServerResponder_eq installDir appId s out)]
    cases i with
    | zero => simp [hI, hL, h0]
    | succ i =>
      rw [List.getElem?_cons_succ]
      refine ih _ rfl (by simp [hL, h0]) i (by simpa using hi) ?_
      intro j hj o ho
      exact hno (j + 1) (by omega) o (by rw [List.getElem?_cons_succ]; exact ho)

/-- The command `app_update` is returned only at a prompt at which, or before which, an
output contained the log-on marker. -/
theorem server_appUpdate_logon (installDir : List Byte) (appId : Int) :
    ∀ (outs : List (List Byte)) (s : ServerState), s.bLogon = false →
      ∀ i : Nat, (commands (updateServerResponder installDir appId) s outs)[i]? =
          some (appUpdateCmd appId) →
        ∃ j : Nat, j ≤ i ∧ ∃ out, outs[j]? = some out ∧ contains out logonMarker = true := by
  intro outs
  induction outs with
  | nil => intro s _ i hi; simp [commands, session] at hi
  | cons out outs ih =>
    intro s hL i hi
    have hfa := ne_of_head_ne (forceInstallDirCmd_head installDir) (appUpdateCmd_head appId)
      (by decide)
    have hla := ne_of_head_ne loginCmd_head (appUpdateCmd_head appId) (by decide)
    cases h0 : contains out logonMarker with
    | true => exact ⟨0, Nat.zero_le _, out, List.getElem?_cons_zero, h0⟩
    | false =>
      rw [commands_cons _ _ _ _ _ _ (updateServerResponder_eq installDir appId s out)] at hi
      cases i with
      | zero =>
        rw [List.getElem?_cons_zero, Option.some.injEq] at hi
        exfalso
        cases hI : s.bInstallDir
        · rw [hI, if_pos rfl] at hi; exact hfa hi
        · rw [hI, if_neg (by decide), if_pos (by simp [h0, hL])] at hi; exact hla hi
      | succ i =>
        rw [List.getElem?_cons_succ] at hi
        obtain ⟨j, hj, o, ho, hc⟩ := ih _ (by simp [h0, hL]) i hi
        exact ⟨j + 1, by omega, o, by rw [List.getElem?_cons_succ]; exact ho, hc⟩

/-- C21: in the responder of `UpdateServer`, for every sequence of prompt outputs, a
command is returned at every prompt; the first command is `force_install_dir
<installDir>`; `app_update <id> validate` is issued at most once, not at the first
prompt, and only at a prompt at which or before which an output contained `Waiting
for user info...OK`; `login anonymous` is the command at every prompt after the first
as long as no output has contained that marker; and every command after `app_update`
is `quit`. -/
theorem C21_base_install_order (installDir : List Byte) (appId : Int)
    (outs : List (List Byte)) :
    (updateServerCommands installDir appId outs).length = outs.length ∧
      (updateServerCommands installDir appId outs).head? =
        outs.head?.map (fun _ => forceInstallDirCmd installDir) ∧
      (updateServerCommands installDir appId outs).count (appUpdateCmd appId) ≤ 1 ∧
      (∀ i : Nat, (updateServerCommands installDir appId outs)[i]? = some (appUpdateCmd appId) →
        0 < i ∧ ∃ j : Nat, j ≤ i ∧ ∃ out, outs[j]? = some out ∧ contains out logonMarker = true) ∧
      (∀ i : Nat, 0 < i → i < outs.length →
        (∀ j : Nat, j ≤ i → ∀ out, outs[j]? = some out → contains out logonMarker = false) →
        (updateServerCommands installDir appId outs)[i]? = some loginCmd) ∧
      (∀ i j : Nat, i < j → j < outs.length →
        (updateServerCommands installDir appId outs)[i]? = some (appUpdateCmd appId) →
        (updateServerCommands installDir appId outs)[j]? = some quitCmd) := by
  have hfa := ne_of_head_ne (forceInstallDirCmd_head installDir) (appUpdateCmd_head appId)
    (by decide)
  refine ⟨server_commands_length installDir appId outs serverStart, ?_, ?_, ?_, ?_,
    fun i j hij hj hi => server_after_appUpdate installDir appId outs serverStart i j hij hj hi⟩
  · cases outs with
    | nil => rfl
    | cons out outs =>
      rw [updateServerCommands,
        commands_cons _ _ _ _ _ _ (updateServerResponder_eq installDir appId serverStart out)]
      rfl
  · cases outs with
    | nil => simp [updateServerCommands, commands, session]
    | cons out outs =>
      rw [updateServerCommands,
        commands_cons _ _ _ _ _ _ (updateServerResponder_eq installDir appId serverStart out)]
      rw [show (if serverStart.bInstallDir = false then forceInstallDirCmd installDir
          else if (contains out logonMarker || serverStart.bLogon) = false then loginCmd
          else if (contains out (installedMarker appId) || serverStart.bDownload) = false then
            appUpdateCmd appId
          else quitCmd) = forceInstallDirCmd installDir from rfl,
        List.count_cons_of_ne (Ne.symm hfa)]
      exact server_appUpdate_once installDir appId outs _ rfl
  · intro i hi
    refine ⟨?_, server_appUpdate_logon installDir appId outs serverStart rfl i hi⟩
    cases i with
    | succ i => omega
    | zero =>
      exfalso
      cases outs with
      | nil => simp [updateServerCommands, commands, session] at hi
      | cons out outs =>
        rw [updateServerCommands,
          commands_cons _ _ _ _ _ _ (updateServerResponder_eq installDir appId serverStart out),
          List.getElem?_cons_zero, Option.some.injEq] at hi
        exact hfa hi
  · intro i hpos hi hno
    cases outs with
    | nil => simp at hi
    | cons out outs =>
      have h0 : contains out logonMarker = false := hno 0 (Nat.zero_le _) out List.getElem?_cons_zero
      rw [updateServerCommands,
        commands_cons _ _ _ _ _ _ (updateServerResponder_eq installDir appId serverStart out)]
      cases i with
      | zero => omega
      | succ i =>
        rw [List.getElem?_cons_succ]
        refine server_login_until installDir appId outs _ rfl (by simp [h0, serverStart]) i
          (by simpa using hi) ?_
        intro j hj o ho
        exact hno (j + 1) (by omega) o (by rw [List.getElem?_cons_succ]; exact ho)

/-- Witness for C21: the log-on marker is seen at the second prompt, `app_update` is
the second command, and the fourth command is `quit`. -/
theorem C21_base_install_order_witness :
    updateServerCommands arkDir 376030 logonAtSecondPrompt =
        [forceInstallDirCmd arkDir, appUpdateCmd 376030, quitCmd, quitCmd] ∧
      (updateServerCommands arkDir 376030 logonAtSecondPrompt)[3]? = some quitCmd :=
  ⟨by decide, (C21_base_install_order arkDir 376030 logonAtSecondPrompt).2.2.2.2.2 1 3
    (by decide) (by decide) (by decide)⟩

/-! ### Index safety of the depot filters and of the decoder -/

/-- C22: the filters of `HasUpdate` index past the end of the split path. The
top-level pair `.key` of a remote text has two segments and the remote filter reads
segment 2; a pair directly under `depots` has four segments and the remote filter
reads segment 4; a pair directly under `InstalledDepots` has four segments and the
local filter reads segment 4. -/
theorem C22_filter_index_out_of_range :
    ReadAcf topLevelPairText = some [(".key".toList, "value".toList)] ∧
      (split ".key".toList (Char.ofNat 0x2E)).length = 2 ∧
      HasUpdate [(".key".toList, "value".toList)] [] = .outOfRange ∧
      ReadAcf underDepotsText =
        some [(".376030.depots.baselanguages".toList, "english".toList)] ∧
      (split ".376030.depots.baselanguages".toList (Char.ofNat 0x2E)).length = 4 ∧
      HasUpdate [(".376030.depots.baselanguages".toList, "english".toList)] [] = .outOfRange ∧
      ReadAcf underInstalledDepotsText =
        some [(".AppState.InstalledDepots.1006".toList, "123".toList)] ∧
      (split ".AppState.InstalledDepots.1006".toList (Char.ofNat 0x2E)).length = 4 ∧
      HasUpdate [] [(".AppState.InstalledDepots.1006".toList, "123".toList)] = .outOfRange :=
  ⟨by decide, by decide, by decide, by decide, by decide, by decide, by decide, by decide,
    by decide⟩

/-- C23: the decode of `unpackFile` slices its data out of range instead of returning
an error. For every byte sequence shorter than 32 bytes the header slice is out of
range; when the chunk table runs past the end of the data the descriptor slice is;
and when the recorded compressed size of a chunk exceeds the remaining payload the
chunk slice is, before the chunk is inflated when the data has no spare capacity and
after it was inflated and written otherwise. -/
theorem C23_decode_out_of_range (inflate : List Byte → Except ZlibError (List Byte))
    (data slack : List Byte) (size : Int) :
    unpackFile inflate (data.take 31) slack size = some ⟨.outOfRange, [], 0, 0⟩ ∧
      unpackFile inflate tablePastEndContainer slack size = some ⟨.outOfRange, [], 1, 0⟩ ∧
      unpackFile inflateStored shortPayloadContainer [] 3 = some ⟨.outOfRange, [], 1, 0⟩ ∧
      unpackFile inflateStored shortPayloadContainer [0] 3 =
        some ⟨.outOfRange, [97, 98, 99], 1, 1⟩ := by
  refine ⟨?_, rfl, by decide, by decide⟩
  unfold unpackFile
  rw [if_pos (by rw [List.length_take]; omega)]

end Steamcmd
